import Mathlib

/-!
# TinyG inverse kinematics (`firmware/kinematics.c`)

A shallow embedding of `ik_kinematics` and `_cartesian_kinematics`.

* `double` values are elements of an arbitrary type `α` with the operations the
  code uses (`0`, `*`, and `/` where a quotient is taken); a statement that
  needs an algebraic law says so. `Dbl` adds the non-finite values of a `double`
  (infinities, NaN) to exact finite ones; rounding is not modelled.
* The C arrays `travel[]`, `joint[]` and `steps[]` are lists held in an explicit
  memory record `Mem`; every read and write is bounds-checked and a run that
  leaves an array yields `none`.
* `for` loops driven by a `uint8_t` counter are run by `for_u8`, which keeps the
  counter modulo 256 and is given 256 evaluations of the loop condition.
-/

namespace TinyG

/-- Constants that `kinematics.c` takes from `tinyg.h` and `canonical_machine.h`.
`AXES` and `MOTORS` are the array sizes the `uint8_t` loop counters run over, so
they fit in eight bits (the firmware uses 6 and 4); `AXIS_INHIBITED` is a member
of the axis-mode enumeration and `TG_OK` is the success status code. -/
structure Consts where
  AXES : Nat
  MOTORS : Nat
  AXIS_INHIBITED : Nat
  TG_OK : Nat
  AXES_u8 : AXES ≤ 255
  MOTORS_u8 : MOTORS ≤ 255

/-- The field of `cfg.a[i]` read by the kinematics: `uint8_t axis_mode`. -/
structure cfgAxis where
  axis_mode : Nat
deriving DecidableEq, Repr

/-- The fields of `cfg.m[j]` read by the kinematics: `motor_map` (an unsigned
axis number) and `steps_per_unit` (a `double`). -/
structure cfgMotor (α : Type) where
  motor_map : Nat
  steps_per_unit : α
deriving DecidableEq, Repr

/-- The global `cfg`: the axis table `cfg.a[AXES]` and the motor table
`cfg.m[MOTORS]`. -/
structure cfgStruct (α : Type) where
  a : List cfgAxis
  m : List (cfgMotor α)
deriving DecidableEq, Repr

/-- The arrays `ik_kinematics` works on: the caller's `travel[]` and `steps[]`
and the local `joint[AXES]`, whose entries hold arbitrary values at entry. -/
structure Mem (α : Type) where
  travel : List α
  joint : List α
  steps : List α
deriving DecidableEq, Repr

/-- Array read `xs[i]`; `none` outside the array. -/
def load {β : Type} (xs : List β) (i : Nat) : Option β :=
  xs[i]?

/-- Array write `xs[i] = v`; `none` outside the array. -/
def store {β : Type} (xs : List β) (i : Nat) (v : β) : Option (List β) :=
  if i < xs.length then some (xs.set i v) else none

/-- The loop `for (i = start; i < n; i++) body` with `uint8_t i`: the counter is
incremented modulo 256; `fuel` bounds the number of evaluations of `i < n`, and
`none` is returned when it is used up or when the body fails. -/
def for_u8 {σ : Type} (n : Nat) (body : Nat → σ → Option σ) : Nat → Nat → σ → Option σ
  | 0, _, _ => none
  | fuel + 1, i, s =>
    if i < n then
      match body i s with
      | some s' => for_u8 n body fuel ((i + 1) % 256) s'
      | none => none
    else some s

/-- Loop body of `_cartesian_kinematics`: `joint[i] = travel[i];`. -/
def cartesian_body {α : Type} (i : Nat) (st : Mem α) : Option (Mem α) := do
  let t ← load st.travel i
  let jn ← store st.joint i t
  pure { st with joint := jn }

/-- `_cartesian_kinematics(travel, joint, microseconds)`: copies `travel` into
`joint` and returns `TG_OK`; `microseconds` is not used. -/
def _cartesian_kinematics {α : Type} (K : Consts) (mem : Mem α) (microseconds : α) :
    Option (Nat × Mem α) := do
  let st ← for_u8 K.AXES cartesian_body 256 0 mem
  pure (K.TG_OK, st)

/-- Body of the inner loop of `ik_kinematics` for axis `i`:
`if (cfg.m[j].motor_map == i) steps[j] = joint[i] * cfg.m[j].steps_per_unit;`. -/
def motor_body {α : Type} [Mul α] (cfg : cfgStruct α) (i j : Nat) (st : Mem α) :
    Option (Mem α) := do
  let mo ← load cfg.m j
  if mo.motor_map = i then
    let v ← load st.joint i
    let sp ← store st.steps j (v * mo.steps_per_unit)
    pure { st with steps := sp }
  else
    pure st

/-- Body of the outer loop of `ik_kinematics`: an inhibited axis gets
`joint[i] = 0`, then the inner loop over the motors runs. -/
def axis_body {α : Type} [Zero α] [Mul α] (K : Consts) (cfg : cfgStruct α) (i : Nat)
    (st : Mem α) : Option (Mem α) := do
  let ax ← load cfg.a i
  let st1 ←
    if ax.axis_mode = K.AXIS_INHIBITED then
      (store st.joint i 0).map (fun jn => { st with joint := jn })
    else
      pure st
  for_u8 K.MOTORS (motor_body cfg i) 256 0 st1

/-- `ik_kinematics(travel, steps, microseconds)`: runs the cartesian transform
(its status is discarded), then the axes x motors mapping loop, and returns
`TG_OK` together with the memory at exit. -/
def ik_kinematics {α : Type} [Zero α] [Mul α] (K : Consts) (cfg : cfgStruct α)
    (mem : Mem α) (microseconds : α) : Option (Nat × Mem α) := do
  let r ← _cartesian_kinematics K mem microseconds
  let st ← for_u8 K.AXES (axis_body K cfg) 256 0 r.2
  pure (K.TG_OK, st)

/-- Effective joint value of axis `i` in the words of the specification: `0` if
axis `i` is `AXIS_INHIBITED`, `travel[i]` otherwise. -/
def effective_joint {α : Type} [Zero α] (K : Consts) (cfg : cfgStruct α)
    (travel : List α) (i : Nat) : Option α := do
  let ax ← load cfg.a i
  let t ← load travel i
  pure (if ax.axis_mode = K.AXIS_INHIBITED then 0 else t)

/-- Body of the per-motor form of the mapping in the words of the specification:
`steps[j] = eff(motor_map[j]) * steps_per_unit[j]`. -/
def per_motor_body {α : Type} [Zero α] [Mul α] (K : Consts) (cfg : cfgStruct α)
    (j : Nat) (st : Mem α) : Option (Mem α) := do
  let mo ← load cfg.m j
  let e ← effective_joint K cfg st.travel mo.motor_map
  let sp ← store st.steps j (e * mo.steps_per_unit)
  pure { st with steps := sp }

/-- The per-motor form: one pass over the motors, no loop over the axes. -/
def map_per_motor {α : Type} [Zero α] [Mul α] (K : Consts) (cfg : cfgStruct α)
    (mem : Mem α) : Option (Mem α) :=
  for_u8 K.MOTORS (per_motor_body K cfg) 256 0 mem

/-! ### Observed runs

The same program with an observer attached: every execution of a loop body is
counted and every array access is recorded with the index used and the size of
the array accessed. -/

/-- The five arrays the kinematics touches. -/
inductive Arr where
  | travel
  | joint
  | steps
  | cfg_a
  | cfg_m
deriving DecidableEq, Repr

/-- One array access: the array, the index used and the size of the array. -/
structure Access where
  arr : Arr
  index : Nat
  size : Nat
deriving DecidableEq, Repr

/-- What is observed of a run: executions of the loop body of
`_cartesian_kinematics`, of the outer and of the inner loop body of
`ik_kinematics`, and the array accesses in program order. -/
structure Probe where
  cartesian_iters : Nat
  outer_iters : Nat
  inner_iters : Nat
  accesses : List Access
deriving DecidableEq, Repr

/-- Record one access. -/
def Probe.access (pr : Probe) (a : Arr) (i size : Nat) : Probe :=
  { pr with accesses := pr.accesses ++ [⟨a, i, size⟩] }

/-- Observed array read: `load`, recorded. -/
def load_probe {β : Type} (a : Arr) (xs : List β) (i : Nat) (pr : Probe) :
    Option (β × Probe) :=
  (load xs i).map (fun v => (v, pr.access a i xs.length))

/-- Observed array write: `store`, recorded. -/
def store_probe {β : Type} (a : Arr) (xs : List β) (i : Nat) (v : β) (pr : Probe) :
    Option (List β × Probe) :=
  (store xs i v).map (fun ys => (ys, pr.access a i xs.length))

/-- Observed loop body of `_cartesian_kinematics`. -/
def cartesian_body_probe {α : Type} (i : Nat) (p : Mem α × Probe) :
    Option (Mem α × Probe) := do
  let r ← load_probe Arr.travel p.1.travel i
    { p.2 with cartesian_iters := p.2.cartesian_iters + 1 }
  let w ← store_probe Arr.joint p.1.joint i r.1 r.2
  pure ({ p.1 with joint := w.1 }, w.2)

/-- Observed `_cartesian_kinematics`. -/
def cartesian_kinematics_probe {α : Type} (K : Consts) (p : Mem α × Probe)
    (microseconds : α) : Option (Nat × Mem α × Probe) := do
  let q ← for_u8 K.AXES cartesian_body_probe 256 0 p
  pure (K.TG_OK, q)

/-- Observed inner loop body of `ik_kinematics` for axis `i`. -/
def motor_body_probe {α : Type} [Mul α] (cfg : cfgStruct α) (i j : Nat)
    (p : Mem α × Probe) : Option (Mem α × Probe) := do
  let r ← load_probe Arr.cfg_m cfg.m j { p.2 with inner_iters := p.2.inner_iters + 1 }
  if r.1.motor_map = i then
    let v ← load_probe Arr.joint p.1.joint i r.2
    let w ← store_probe Arr.steps p.1.steps j (v.1 * r.1.steps_per_unit) v.2
    pure ({ p.1 with steps := w.1 }, w.2)
  else
    pure (p.1, r.2)

/-- Observed outer loop body of `ik_kinematics`. -/
def axis_body_probe {α : Type} [Zero α] [Mul α] (K : Consts) (cfg : cfgStruct α)
    (i : Nat) (p : Mem α × Probe) : Option (Mem α × Probe) := do
  let r ← load_probe Arr.cfg_a cfg.a i { p.2 with outer_iters := p.2.outer_iters + 1 }
  let p1 ←
    if r.1.axis_mode = K.AXIS_INHIBITED then
      (store_probe Arr.joint p.1.joint i 0 r.2).map
        (fun w => ({ p.1 with joint := w.1 }, w.2))
    else
      pure (p.1, r.2)
  for_u8 K.MOTORS (motor_body_probe cfg i) 256 0 p1

/-- Observed `ik_kinematics`. -/
def ik_kinematics_probe {α : Type} [Zero α] [Mul α] (K : Consts) (cfg : cfgStruct α)
    (p : Mem α × Probe) (microseconds : α) : Option (Nat × Mem α × Probe) := do
  let r ← cartesian_kinematics_probe K p microseconds
  let q ← for_u8 K.AXES (axis_body_probe K cfg) 256 0 r.2
  pure (K.TG_OK, q)

/-- The loop bound that governs the index of each array: `AXES` for `travel`,
`joint` and `cfg.a`, `MOTORS` for `steps` and `cfg.m`. -/
def Arr.bound (K : Consts) : Arr → Nat
  | Arr.steps => K.MOTORS
  | Arr.cfg_m => K.MOTORS
  | _ => K.AXES

/-- Every recorded access used an index below the size of its array and below
the loop bound of that array. -/
def Probe.safe (K : Consts) (pr : Probe) : Prop :=
  ∀ a ∈ pr.accesses, a.index < a.size ∧ a.index < a.arr.bound K

/-- The observer before the run: nothing counted, nothing recorded. -/
def Probe.start : Probe := ⟨0, 0, 0, []⟩

/-- The array sizes the C declarations promise: `travel` and `steps` offer at
least `AXES` and `MOTORS` entries, and `joint`, `cfg.a` and `cfg.m` are declared
with exactly `AXES`, `AXES` and `MOTORS` entries. -/
def Sized {α : Type} (K : Consts) (cfg : cfgStruct α) (mem : Mem α) : Prop :=
  K.AXES ≤ mem.travel.length ∧ mem.joint.length = K.AXES ∧
  K.MOTORS ≤ mem.steps.length ∧ cfg.a.length = K.AXES ∧ cfg.m.length = K.MOTORS

instance {α : Type} (K : Consts) (cfg : cfgStruct α) (mem : Mem α) :
    Decidable (Sized K cfg mem) := by
  unfold Sized; infer_instance

/-- What `ik_kinematics` leaves in memory `mem'` when started on `mem`. -/
structure IkPost {α : Type} [Zero α] [Mul α] (K : Consts) (cfg : cfgStruct α)
    (mem mem' : Mem α) : Prop where
  travel_eq : mem'.travel = mem.travel
  joint_len : mem'.joint.length = K.AXES
  steps_len : mem'.steps.length = mem.steps.length
  joint_at : ∀ (i : Nat) (ax : cfgAxis), cfg.a[i]? = some ax →
    mem'.joint[i]? = if ax.axis_mode = K.AXIS_INHIBITED then some 0 else mem.travel[i]?
  steps_at : ∀ (j : Nat) (mo : cfgMotor α), cfg.m[j]? = some mo →
    mem'.steps[j]? =
      if mo.motor_map < K.AXES then
        (mem'.joint[mo.motor_map]?).map (fun v => v * mo.steps_per_unit)
      else mem.steps[j]?
  steps_beyond : ∀ j, K.MOTORS ≤ j → mem'.steps[j]? = mem.steps[j]?

/-- Three axes, three motors; `AXIS_INHIBITED = 2`, `TG_OK = 0`. -/
def K3 : Consts := ⟨3, 3, 2, 0, by decide, by decide⟩

/-- Three axes, four motors (Z ganged). -/
def K34 : Consts := ⟨3, 4, 2, 0, by decide, by decide⟩

/-- Example configuration: `motor_map = [0,1,2]`, `steps_per_unit = [100,100,400]`,
all axes standard (mode 1). -/
def cfg3 : cfgStruct ℚ :=
  ⟨[⟨1⟩, ⟨1⟩, ⟨1⟩], [⟨0, 100⟩, ⟨1, 100⟩, ⟨2, 400⟩]⟩

/-- Memory for the example: `travel = [1, -2, 1/2]`, stale `joint` and `steps`. -/
def mem3 : Mem ℚ :=
  ⟨[1, -2, 1/2], [7, 7, 7], [9, 9, 9]⟩

/-- The example configuration with axis Y inhibited. -/
def cfg3_y_inhibited : cfgStruct ℚ :=
  ⟨[⟨1⟩, ⟨2⟩, ⟨1⟩], [⟨0, 100⟩, ⟨1, 100⟩, ⟨2, 400⟩]⟩

/-- Ganged example: `motor_map = [0,1,2,2]`, `steps_per_unit = [100,100,400,400]`,
all axes standard. -/
def cfg34 : cfgStruct ℚ :=
  ⟨[⟨1⟩, ⟨1⟩, ⟨1⟩], [⟨0, 100⟩, ⟨1, 100⟩, ⟨2, 400⟩, ⟨2, 400⟩]⟩

/-- The ganged example with axis Z inhibited. -/
def cfg34_z_inhibited : cfgStruct ℚ :=
  ⟨[⟨1⟩, ⟨1⟩, ⟨2⟩], [⟨0, 100⟩, ⟨1, 100⟩, ⟨2, 400⟩, ⟨2, 400⟩]⟩

/-- The ganged example with the second Z motor given `steps_per_unit = 0`. -/
def cfg34_zero_scale : cfgStruct ℚ :=
  ⟨[⟨1⟩, ⟨1⟩, ⟨1⟩], [⟨0, 100⟩, ⟨1, 100⟩, ⟨2, 400⟩, ⟨2, 0⟩]⟩

/-- Memory for the ganged example: `travel = [0, 0, 1]`, stale `joint`, `steps`. -/
def mem34 : Mem ℚ :=
  ⟨[0, 0, 1], [7, 7, 7], [9, 9, 9, 9]⟩

/-- The quotient `steps[k] / cfg.m[k].steps_per_unit` of the ganged-motor
property, for a motor `k` inside both arrays. -/
def steps_ratio {α : Type} [Div α] (cfg : cfgStruct α) (steps : List α) (k : Nat) :
    Option α := do
  let s ← steps[k]?
  let mo ← cfg.m[k]?
  pure (s / mo.steps_per_unit)

/-- The example configuration with motor 1 mapped to the nonexistent axis 7. -/
def cfg3_bad_map : cfgStruct ℚ :=
  ⟨[⟨1⟩, ⟨1⟩, ⟨1⟩], [⟨0, 100⟩, ⟨7, 100⟩, ⟨2, 400⟩]⟩

/-- A second memory for the example: same `travel`, other stale contents (the
`steps` are the output of an earlier call). -/
def mem3_again : Mem ℚ :=
  ⟨[1, -2, 1/2], [0, 0, 0], [100, 0, 200]⟩

/-- A second travel for the example, `[2, 4, -1]`, with stale `joint`, `steps`. -/
def mem3_b : Mem ℚ :=
  ⟨[2, 4, -1], [7, 7, 7], [9, 9, 9]⟩

/-- The sum of the two example travels, `[3, 2, -1/2]`. -/
def mem3_sum : Mem ℚ :=
  ⟨[3, 2, -1/2], [5, 5, 5], [8, 8, 8]⟩

/-- The example travel scaled by `3`, `[3, -6, 3/2]`. -/
def mem3_scaled : Mem ℚ :=
  ⟨[3, -6, 3/2], [5, 5, 5], [8, 8, 8]⟩

/-- The example memory with a `steps` array one entry short of `MOTORS`. -/
def mem3_short_steps : Mem ℚ :=
  ⟨[1, -2, 1/2], [7, 7, 7], [9, 9]⟩

/-- The values of a C `double` with its non-finite ones: a finite value (held as
an exact rational; rounding and overflow are not modelled), an infinity with its
sign, or NaN. -/
inductive Dbl where
  | fin (q : ℚ)
  | inf (negative : Bool)
  | nan
deriving DecidableEq

/-- IEEE 754 multiplication on `Dbl`: NaN is absorbing, zero times an infinity is
NaN, an infinity times a nonzero value is an infinity with the sign of the
product, finite values multiply as rationals. -/
def Dbl.mul : Dbl → Dbl → Dbl
  | Dbl.nan, _ => Dbl.nan
  | _, Dbl.nan => Dbl.nan
  | Dbl.fin a, Dbl.fin b => Dbl.fin (a * b)
  | Dbl.fin a, Dbl.inf n => if a = 0 then Dbl.nan else Dbl.inf (xor (decide (a < 0)) n)
  | Dbl.inf n, Dbl.fin b => if b = 0 then Dbl.nan else Dbl.inf (xor n (decide (b < 0)))
  | Dbl.inf n, Dbl.inf m => Dbl.inf (xor n m)

instance : Zero Dbl := ⟨Dbl.fin 0⟩

instance : Mul Dbl := ⟨Dbl.mul⟩

/-- The example with axis Y inhibited and the Y motor's `steps_per_unit` equal to
`+inf`, over `Dbl`. -/
def cfg3_y_inhibited_inf : cfgStruct Dbl :=
  ⟨[⟨1⟩, ⟨2⟩, ⟨1⟩], [⟨0, Dbl.fin 100⟩, ⟨1, Dbl.inf false⟩, ⟨2, Dbl.fin 400⟩]⟩

/-- The example memory over `Dbl`: `travel = [1, -2, 1/2]`, stale `joint`, `steps`. -/
def mem3_dbl : Mem Dbl :=
  ⟨[Dbl.fin 1, Dbl.fin (-2), Dbl.fin (1/2)], [Dbl.fin 7, Dbl.fin 7, Dbl.fin 7],
    [Dbl.fin 9, Dbl.fin 9, Dbl.fin 9]⟩

/-! ## Loop rule -/

/-- Total-correctness rule for `for_u8`: when the bound fits the 8-bit counter and
the body preserves an invariant, the loop started at `i` with more fuel than
remaining iterations returns a state satisfying the invariant at `n`. -/
theorem for_u8_rule_from {σ : Type} (n : Nat) (hn : n ≤ 255) (body : Nat → σ → Option σ)
    (Inv : Nat → σ → Prop)
    (hstep : ∀ i s, i < n → Inv i s → ∃ s', body i s = some s' ∧ Inv (i + 1) s') :
    ∀ fuel i s, i ≤ n → n - i < fuel → Inv i s →
      ∃ s', for_u8 n body fuel i s = some s' ∧ Inv n s' := by
  intro fuel
  induction fuel with
  | zero => intro i s _ hf _; omega
  | succ fuel ih =>
    intro i s hi hf hinv
    by_cases hlt : i < n
    · obtain ⟨s1, hb, h1⟩ := hstep i s hlt hinv
      have hmod : (i + 1) % 256 = i + 1 := Nat.mod_eq_of_lt (by omega)
      obtain ⟨s2, hrun, h2⟩ := ih (i + 1) s1 (by omega) (by omega) h1
      refine ⟨s2, ?_, h2⟩
      simp only [for_u8, hlt, if_true, hb, hmod, hrun]
    · have hin : i = n := by omega
      subst hin
      exact ⟨s, by simp [for_u8], hinv⟩

/-- The rule for a whole loop as the C code runs it: counter from 0, 256
evaluations of the condition available. -/
theorem for_u8_rule {σ : Type} (n : Nat) (hn : n ≤ 255) (body : Nat → σ → Option σ)
    (Inv : Nat → σ → Prop) (s : σ) (h0 : Inv 0 s)
    (hstep : ∀ i s, i < n → Inv i s → ∃ s', body i s = some s' ∧ Inv (i + 1) s') :
    ∃ s', for_u8 n body 256 0 s = some s' ∧ Inv n s' :=
  for_u8_rule_from n hn body Inv hstep 256 0 s (Nat.zero_le n) (by omega) h0

/-- With a bound of 256 the 8-bit counter wraps before reaching it: a loop whose
body always succeeds exhausts any amount of fuel. -/
theorem for_u8_wraps {σ : Type} (body : Nat → σ → Option σ)
    (hbody : ∀ i s, ∃ s1, body i s = some s1) :
    ∀ fuel i s, i < 256 → for_u8 256 body fuel i s = none := by
  intro fuel
  induction fuel with
  | zero => intro i s _; rfl
  | succ fuel ih =>
    intro i s hi
    obtain ⟨s1, hb⟩ := hbody i s
    simp only [for_u8, hi, if_true, hb]
    exact ih _ s1 (Nat.mod_lt _ (by decide))

/-! ## The cartesian transform -/

/-- One iteration of the copy loop succeeds inside the arrays and writes entry
`i` of `joint` only. -/
theorem cartesian_body_spec {α : Type} (i : Nat) (st : Mem α)
    (ht : i < st.travel.length) (hj : i < st.joint.length) :
    ∃ t, st.travel[i]? = some t ∧
      cartesian_body i st = some { st with joint := st.joint.set i t } := by
  refine ⟨st.travel[i], List.getElem?_eq_getElem ht, ?_⟩
  simp [cartesian_body, load, store, List.getElem?_eq_getElem ht, hj]

/-- Effect of `_cartesian_kinematics` on memory: status `TG_OK`, `travel` and
`steps` kept, `joint[i] = travel[i]` for every `i < AXES`. -/
theorem cartesian_spec {α : Type} (K : Consts) (mem : Mem α) (us : α)
    (ht : K.AXES ≤ mem.travel.length) (hj : mem.joint.length = K.AXES) :
    ∃ mem', _cartesian_kinematics K mem us = some (K.TG_OK, mem') ∧
      mem'.travel = mem.travel ∧ mem'.steps = mem.steps ∧
      mem'.joint.length = K.AXES ∧
      ∀ i, i < K.AXES → mem'.joint[i]? = mem.travel[i]? := by
  obtain ⟨s', hrun, hT, hS, hL, hJ⟩ :=
    for_u8_rule K.AXES K.AXES_u8 cartesian_body
      (fun i s => s.travel = mem.travel ∧ s.steps = mem.steps ∧
        s.joint.length = K.AXES ∧ ∀ k, k < i → s.joint[k]? = mem.travel[k]?)
      mem ⟨rfl, rfl, hj, fun k hk => absurd hk (Nat.not_lt_zero k)⟩
      (by
        intro i s hi ⟨hT, hS, hL, hJ⟩
        obtain ⟨t, hti, hb⟩ := cartesian_body_spec i s (by rw [hT]; omega) (by omega)
        refine ⟨_, hb, hT, hS, by simpa using hL, ?_⟩
        intro k hk
        by_cases hki : k = i
        · subst hki
          simp only [List.getElem?_set_self (show k < s.joint.length by omega)]
          rw [← hti, hT]
        · have hne : i ≠ k := fun h => hki h.symm
          simp only [List.getElem?_set_ne hne]
          exact hJ k (by omega))
  exact ⟨s', by simp [_cartesian_kinematics, hrun], hT, hS, hL, hJ⟩

/-! ## The mapping loops -/

/-- One iteration of the inner loop: a motor mapped to axis `i` gets
`joint[i] * steps_per_unit` stored in its `steps` entry, any other motor leaves
the memory as it is. -/
theorem motor_body_spec {α : Type} [Mul α] (cfg : cfgStruct α) (i j : Nat) (st : Mem α)
    (mo : cfgMotor α) (v : α) (hmo : cfg.m[j]? = some mo) (hv : st.joint[i]? = some v)
    (hj : j < st.steps.length) :
    motor_body cfg i j st =
      some (if mo.motor_map = i then
        { st with steps := st.steps.set j (v * mo.steps_per_unit) } else st) := by
  by_cases h : mo.motor_map = i
  · simp [motor_body, load, store, hmo, hv, hj, h]
  · simp [motor_body, load, hmo, h]

/-- Effect of the inner loop for axis `i` whose `joint` entry holds `v`: exactly
the motors mapped to `i` receive `v * steps_per_unit`; `travel`, `joint`, the
other motors and everything beyond `MOTORS` keep their values. -/
theorem motor_loop_spec {α : Type} [Mul α] (K : Consts) (cfg : cfgStruct α) (i : Nat)
    (v : α) (st1 : Mem α) (hv : st1.joint[i]? = some v) (hm : cfg.m.length = K.MOTORS)
    (hs : K.MOTORS ≤ st1.steps.length) :
    ∃ st2, for_u8 K.MOTORS (motor_body cfg i) 256 0 st1 = some st2 ∧
      st2.travel = st1.travel ∧ st2.joint = st1.joint ∧
      st2.steps.length = st1.steps.length ∧
      (∀ (j : Nat) (mo : cfgMotor α), cfg.m[j]? = some mo →
        st2.steps[j]? =
          if mo.motor_map = i then some (v * mo.steps_per_unit) else st1.steps[j]?) ∧
      (∀ j, K.MOTORS ≤ j → st2.steps[j]? = st1.steps[j]?) := by
  obtain ⟨s', hrun, hT, hJ, hL, hA, hB⟩ :=
    for_u8_rule K.MOTORS K.MOTORS_u8 (motor_body cfg i)
      (fun j s => s.travel = st1.travel ∧ s.joint = st1.joint ∧
        s.steps.length = st1.steps.length ∧
        (∀ (k : Nat) (mo : cfgMotor α), cfg.m[k]? = some mo →
          s.steps[k]? =
            if k < j ∧ mo.motor_map = i then some (v * mo.steps_per_unit)
            else st1.steps[k]?) ∧
        (∀ k, K.MOTORS ≤ k → s.steps[k]? = st1.steps[k]?))
      st1 ⟨rfl, rfl, rfl, fun k mo _ => by simp, fun k _ => rfl⟩
      (by
        intro j s hj ⟨hT, hJ, hL, hA, hB⟩
        have hjm : j < cfg.m.length := by omega
        have hmo : cfg.m[j]? = some cfg.m[j] := List.getElem?_eq_getElem hjm
        have hjs : j < s.steps.length := by omega
        have hb := motor_body_spec cfg i j s cfg.m[j] v hmo (by rw [hJ]; exact hv) hjs
        refine ⟨_, hb, ?_⟩
        by_cases hmap : (cfg.m[j]).motor_map = i
        · simp only [hmap, if_true]
          refine ⟨hT, hJ, by simpa using hL, ?_, ?_⟩
          · intro k mo hk
            by_cases hkj : k = j
            · subst hkj
              have hmoeq : cfg.m[k] = mo := Option.some.inj (hmo.symm.trans hk)
              simp [List.getElem?_set_self hjs, hmap, ← hmoeq]
            · have hne : j ≠ k := fun h => hkj h.symm
              simp only [List.getElem?_set_ne hne]
              rw [hA k mo hk]
              have hiff : (k < j + 1 ∧ mo.motor_map = i) ↔ (k < j ∧ mo.motor_map = i) :=
                ⟨fun h => ⟨by omega, h.2⟩, fun h => ⟨by omega, h.2⟩⟩
              simp only [hiff]
          · intro k hk
            have hne : j ≠ k := by omega
            simp only [List.getElem?_set_ne hne]
            exact hB k hk
        · simp only [hmap, if_false]
          refine ⟨hT, hJ, hL, ?_, hB⟩
          intro k mo hk
          rw [hA k mo hk]
          by_cases hkj : k = j
          · subst hkj
            have hmoeq : cfg.m[k] = mo := Option.some.inj (hmo.symm.trans hk)
            have hmi : ¬ mo.motor_map = i := by rw [← hmoeq]; exact hmap
            simp [hmi]
          · have hiff : (k < j + 1 ∧ mo.motor_map = i) ↔ (k < j ∧ mo.motor_map = i) :=
              ⟨fun h => ⟨by omega, h.2⟩, fun h => ⟨by omega, h.2⟩⟩
            simp only [hiff])
  refine ⟨s', hrun, hT, hJ, hL, ?_, hB⟩
  intro j mo hj
  rw [hA j mo hj]
  have hjl : j < K.MOTORS := by
    have := (List.getElem?_eq_some_iff.mp hj).1
    omega
  simp [hjl]

/-- One iteration of the outer loop on axis `i` whose `joint` entry holds `t`:
the entry becomes `0` for an inhibited axis and stays `t` otherwise, and the
motors mapped to `i` receive that value times their `steps_per_unit`. -/
theorem axis_body_spec {α : Type} [Zero α] [Mul α] (K : Consts) (cfg : cfgStruct α)
    (i : Nat) (st : Mem α) (ax : cfgAxis) (t : α) (hax : cfg.a[i]? = some ax)
    (ht : st.joint[i]? = some t) (hm : cfg.m.length = K.MOTORS)
    (hs : K.MOTORS ≤ st.steps.length) :
    ∃ st', axis_body K cfg i st = some st' ∧
      st'.travel = st.travel ∧ st'.joint.length = st.joint.length ∧
      st'.joint[i]? = some (if ax.axis_mode = K.AXIS_INHIBITED then 0 else t) ∧
      (∀ k, k ≠ i → st'.joint[k]? = st.joint[k]?) ∧
      st'.steps.length = st.steps.length ∧
      (∀ (j : Nat) (mo : cfgMotor α), cfg.m[j]? = some mo →
        st'.steps[j]? =
          if mo.motor_map = i then
            some ((if ax.axis_mode = K.AXIS_INHIBITED then 0 else t) * mo.steps_per_unit)
          else st.steps[j]?) ∧
      (∀ j, K.MOTORS ≤ j → st'.steps[j]? = st.steps[j]?) := by
  have hil : i < st.joint.length := (List.getElem?_eq_some_iff.mp ht).1
  by_cases hinh : ax.axis_mode = K.AXIS_INHIBITED
  · obtain ⟨st2, hrun, hT, hJ, hL, hA, hB⟩ :=
      motor_loop_spec K cfg i 0 { st with joint := st.joint.set i 0 }
        (by simp [List.getElem?_set_self hil]) hm hs
    refine ⟨st2, ?_, hT, by simp [hJ], by simp [hJ, List.getElem?_set_self hil, hinh],
      ?_, hL, ?_, hB⟩
    · simp [axis_body, load, store, hax, hinh, hil, hrun]
    · intro k hk
      have hne : i ≠ k := fun h => hk h.symm
      simp [hJ, List.getElem?_set_ne hne]
    · intro j mo hj
      simpa [hinh] using hA j mo hj
  · obtain ⟨st2, hrun, hT, hJ, hL, hA, hB⟩ := motor_loop_spec K cfg i t st ht hm hs
    refine ⟨st2, ?_, hT, by rw [hJ], by simp [hJ, ht, hinh], ?_, hL, ?_, hB⟩
    · simp [axis_body, load, hax, hinh, hrun]
    · intro k _
      rw [hJ]
    · intro j mo hj
      simpa [hinh] using hA j mo hj

/-- The mapping loop of `ik_kinematics`, started on a memory whose `joint` holds
a copy of `travel`, ends with the postcondition `IkPost`. -/
theorem axis_loop_spec {α : Type} [Zero α] [Mul α] (K : Consts) (cfg : cfgStruct α)
    (mem st0 : Mem α) (hs : Sized K cfg mem) (hT0 : st0.travel = mem.travel)
    (hS0 : st0.steps = mem.steps) (hL0 : st0.joint.length = K.AXES)
    (hJ0 : ∀ i, i < K.AXES → st0.joint[i]? = mem.travel[i]?) :
    ∃ mem', for_u8 K.AXES (axis_body K cfg) 256 0 st0 = some mem' ∧
      IkPost K cfg mem mem' := by
  obtain ⟨htl, _, hsl, hal, hml⟩ := hs
  have hidx : ∀ (k : Nat) (ax : cfgAxis), cfg.a[k]? = some ax → k < K.AXES := by
    intro k ax hk
    have := (List.getElem?_eq_some_iff.mp hk).1
    omega
  obtain ⟨s', hrun, hT, hJL, hSL, hJ, hA, hB⟩ :=
    for_u8_rule K.AXES K.AXES_u8 (axis_body K cfg)
      (fun i s => s.travel = mem.travel ∧ s.joint.length = K.AXES ∧
        s.steps.length = mem.steps.length ∧
        (∀ (k : Nat) (ax : cfgAxis), cfg.a[k]? = some ax →
          s.joint[k]? =
            if k < i ∧ ax.axis_mode = K.AXIS_INHIBITED then some 0 else mem.travel[k]?) ∧
        (∀ (j : Nat) (mo : cfgMotor α), cfg.m[j]? = some mo →
          s.steps[j]? =
            if mo.motor_map < i then
              (s.joint[mo.motor_map]?).map (fun v => v * mo.steps_per_unit)
            else mem.steps[j]?) ∧
        (∀ j, K.MOTORS ≤ j → s.steps[j]? = mem.steps[j]?))
      st0
      ⟨hT0, hL0, by rw [hS0], fun k ax hk => by simpa using hJ0 k (hidx k ax hk),
        fun j mo _ => by simp [hS0], fun j _ => by rw [hS0]⟩
      (by
        intro i s hi ⟨hT, hJL, hSL, hJ, hA, hB⟩
        have hia : i < cfg.a.length := by omega
        have hax : cfg.a[i]? = some cfg.a[i] := List.getElem?_eq_getElem hia
        have hit : i < mem.travel.length := by omega
        have htr : mem.travel[i]? = some mem.travel[i] := List.getElem?_eq_getElem hit
        have hji : s.joint[i]? = some mem.travel[i] := by
          rw [hJ i _ hax, ← htr]; simp
        obtain ⟨st', hb, hT', hJL', hJi', hJo', hSL', hA', hB'⟩ :=
          axis_body_spec K cfg i s cfg.a[i] mem.travel[i] hax hji hml (by omega)
        refine ⟨st', hb, hT'.trans hT, hJL'.trans hJL, hSL'.trans hSL, ?_, ?_, ?_⟩
        · intro k ax hk
          by_cases hki : k = i
          · subst hki
            have hax_eq : cfg.a[k] = ax := Option.some.inj (hax.symm.trans hk)
            rw [hJi', hax_eq]
            by_cases hinh : ax.axis_mode = K.AXIS_INHIBITED
            · simp [hinh]
            · simp [hinh, htr]
          · rw [hJo' k hki, hJ k ax hk]
            have hiff : (k < i + 1 ∧ ax.axis_mode = K.AXIS_INHIBITED) ↔
                (k < i ∧ ax.axis_mode = K.AXIS_INHIBITED) :=
              ⟨fun h => ⟨by omega, h.2⟩, fun h => ⟨by omega, h.2⟩⟩
            simp only [hiff]
        · intro j mo hj
          rw [hA' j mo hj]
          by_cases hmi : mo.motor_map = i
          · have hlt : mo.motor_map < i + 1 := by omega
            simp only [hmi, if_true, hJi', Option.map_some', Nat.lt_succ_self]
          · rw [if_neg hmi, hA j mo hj, hJo' _ hmi]
            have hiff : mo.motor_map < i + 1 ↔ mo.motor_map < i :=
              ⟨fun h => by omega, fun h => by omega⟩
            simp only [hiff]
        · intro j hj
          rw [hB' j hj, hB j hj])
  refine ⟨s', hrun, hT, hJL, hSL, ?_, hA, hB⟩
  intro i ax hi
  rw [hJ i ax hi]
  simp [hidx i ax hi]

/-- Total correctness of `ik_kinematics`: on arrays of the declared sizes the
call returns `TG_OK` and a memory satisfying `IkPost`. -/
theorem ik_kinematics_spec {α : Type} [Zero α] [Mul α] (K : Consts) (cfg : cfgStruct α)
    (mem : Mem α) (us : α) (hs : Sized K cfg mem) :
    ∃ mem', ik_kinematics K cfg mem us = some (K.TG_OK, mem') ∧
      IkPost K cfg mem mem' := by
  obtain ⟨st0, hc, hT0, hS0, hL0, hJ0⟩ := cartesian_spec K mem us hs.1 hs.2.1
  obtain ⟨mem', hrun, hpost⟩ := axis_loop_spec K cfg mem st0 hs hT0 hS0 hL0 hJ0
  exact ⟨mem', by simp [ik_kinematics, hc, hrun], hpost⟩

/-- A table entry that exists lies inside the table. -/
theorem lt_of_getElem?_some {β : Type} {xs : List β} {i : Nat} {x : β}
    (h : xs[i]? = some x) : i < xs.length :=
  (List.getElem?_eq_some_iff.mp h).1

/-! ## Scaling, inhibition, identity -/

/-- C1 (linearity of scaling): when every motor's `motor_map` is below `AXES`,
`ik_kinematics` returns `TG_OK` and each motor `k` has a mapped axis
`i = motor_map[k]` with a travel entry `t = travel[i]`; if that axis is not
`AXIS_INHIBITED` then `steps[k] = t * steps_per_unit[k]`, the plain product, for
any prior contents of `steps` and `joint` and any `microseconds`. -/
theorem ik_scaling_linear {α : Type} [Zero α] [Mul α] (K : Consts) (cfg : cfgStruct α)
    (mem : Mem α) (us : α) (hs : Sized K cfg mem)
    (hmap : ∀ mo ∈ cfg.m, mo.motor_map < K.AXES) :
    ∃ mem', ik_kinematics K cfg mem us = some (K.TG_OK, mem') ∧
      ∀ (k : Nat) (mo : cfgMotor α), cfg.m[k]? = some mo →
        ∃ (ax : cfgAxis) (t : α), cfg.a[mo.motor_map]? = some ax ∧
          mem.travel[mo.motor_map]? = some t ∧
          (ax.axis_mode ≠ K.AXIS_INHIBITED →
            mem'.steps[k]? = some (t * mo.steps_per_unit)) := by
  obtain ⟨mem', hrun, hp⟩ := ik_kinematics_spec K cfg mem us hs
  refine ⟨mem', hrun, ?_⟩
  intro k mo hk
  have hlt : mo.motor_map < K.AXES := hmap mo (List.getElem?_mem hk)
  obtain ⟨htl, _, _, hal, _⟩ := hs
  have hia : mo.motor_map < cfg.a.length := by omega
  have hit : mo.motor_map < mem.travel.length := by omega
  refine ⟨cfg.a[mo.motor_map], mem.travel[mo.motor_map],
    List.getElem?_eq_getElem hia, List.getElem?_eq_getElem hit, ?_⟩
  intro hni
  rw [hp.steps_at k mo hk, if_pos hlt,
    hp.joint_at mo.motor_map _ (List.getElem?_eq_getElem hia), if_neg hni,
    List.getElem?_eq_getElem hit]
  rfl

/-- C1, at the example `motor_map = [0,1,2]`, `steps_per_unit = [100,100,400]`,
`travel = [1, -2, 1/2]`: the hypotheses hold, the theorem applies, and the run
yields `steps = [100, -200, 200]`. -/
theorem ik_scaling_linear_witness :
    Sized K3 cfg3 mem3 ∧ (∀ mo ∈ cfg3.m, mo.motor_map < K3.AXES) ∧
    (∃ mem', ik_kinematics K3 cfg3 mem3 0 = some (K3.TG_OK, mem') ∧
      ∀ (k : Nat) (mo : cfgMotor ℚ), cfg3.m[k]? = some mo →
        ∃ (ax : cfgAxis) (t : ℚ), cfg3.a[mo.motor_map]? = some ax ∧
          mem3.travel[mo.motor_map]? = some t ∧
          (ax.axis_mode ≠ K3.AXIS_INHIBITED →
            mem'.steps[k]? = some (t * mo.steps_per_unit))) ∧
    ik_kinematics K3 cfg3 mem3 0 =
      some (0, ⟨[1, -2, 1/2], [1, -2, 1/2], [100, -200, 200]⟩) :=
  ⟨by decide, by decide,
    ik_scaling_linear K3 cfg3 mem3 0 (by decide) (by decide),
    by norm_num [ik_kinematics, _cartesian_kinematics, for_u8, cartesian_body, axis_body,
      motor_body, load, store, K3, cfg3, mem3]⟩

/-- On `Dbl`, `*` is `Dbl.mul`. -/
theorem Dbl.mul_def (a b : Dbl) : a * b = Dbl.mul a b := rfl

/-- The zero of `Dbl` is the finite value `0`. -/
theorem Dbl.zero_def : (0 : Dbl) = Dbl.fin 0 := rfl

/-- C2 fails as stated: with axis Y inhibited and the Y motor's `steps_per_unit`
equal to `+inf`, line 71 computes `0 * inf`, so `steps[1]` is NaN after the call,
not `0`. -/
theorem ik_inhibited_steps_counterexample :
    cfg3_y_inhibited_inf.a[1]? = some ⟨K3.AXIS_INHIBITED⟩ ∧
    cfg3_y_inhibited_inf.m[1]? = some ⟨1, Dbl.inf false⟩ ∧
    ik_kinematics K3 cfg3_y_inhibited_inf mem3_dbl 0 =
      some (K3.TG_OK, ⟨[Dbl.fin 1, Dbl.fin (-2), Dbl.fin (1/2)],
        [Dbl.fin 1, Dbl.fin 0, Dbl.fin (1/2)], [Dbl.fin 100, Dbl.nan, Dbl.fin 200]⟩) ∧
    (ik_kinematics K3 cfg3_y_inhibited_inf mem3_dbl 0).map (fun r => r.2.steps[1]?) =
      some (some Dbl.nan) ∧
    (ik_kinematics K3 cfg3_y_inhibited_inf mem3_dbl 0).map (fun r => r.2.steps[1]?) ≠
      some (some 0) := by
  have h : ik_kinematics K3 cfg3_y_inhibited_inf mem3_dbl 0 =
      some (K3.TG_OK, ⟨[Dbl.fin 1, Dbl.fin (-2), Dbl.fin (1/2)],
        [Dbl.fin 1, Dbl.fin 0, Dbl.fin (1/2)], [Dbl.fin 100, Dbl.nan, Dbl.fin 200]⟩) := by
    norm_num [ik_kinematics, _cartesian_kinematics, for_u8, cartesian_body, axis_body,
      motor_body, load, store, K3, cfg3_y_inhibited_inf, mem3_dbl, Dbl.mul_def,
      Dbl.zero_def, Dbl.mul]
    rfl
  refine ⟨by decide, rfl, h, ?_, ?_⟩
  · rw [h]; rfl
  · rw [h]; simp [Dbl.zero_def]

/-- C2, amended (inhibition property): whatever `travel` and the configuration
hold, if axis `i` has `axis_mode = AXIS_INHIBITED` then after `ik_kinematics`
every motor `k` with `motor_map[k] = i` has `steps[k] = 0 * steps_per_unit[k]`,
the product line 71 computes from the zeroed `joint[i]`; it does not depend on
`travel[i]`, and it is `0` whenever `0 * steps_per_unit[k] = 0`. -/
theorem ik_inhibited_steps_zero_product {α : Type} [Zero α] [Mul α] (K : Consts)
    (cfg : cfgStruct α) (mem : Mem α) (us : α) (hs : Sized K cfg mem) :
    ∃ mem', ik_kinematics K cfg mem us = some (K.TG_OK, mem') ∧
      ∀ (i k : Nat) (ax : cfgAxis) (mo : cfgMotor α),
        cfg.a[i]? = some ax → ax.axis_mode = K.AXIS_INHIBITED →
        cfg.m[k]? = some mo → mo.motor_map = i →
        mem'.steps[k]? = some (0 * mo.steps_per_unit) ∧
        (0 * mo.steps_per_unit = 0 → mem'.steps[k]? = some 0) := by
  obtain ⟨mem', hrun, hp⟩ := ik_kinematics_spec K cfg mem us hs
  refine ⟨mem', hrun, ?_⟩
  intro i k ax mo hax hinh hk hmi
  have hlt : mo.motor_map < K.AXES := by
    have := lt_of_getElem?_some hax
    have := hs.2.2.2.1
    omega
  have hst : mem'.steps[k]? = some (0 * mo.steps_per_unit) := by
    rw [hp.steps_at k mo hk, if_pos hlt, hmi, hp.joint_at i ax hax, if_pos hinh]
    rfl
  exact ⟨hst, fun h0 => by rw [hst, h0]⟩

/-- C2 amended, at the example with axis Y inhibited and `travel = [1, -2, 1/2]`:
the run yields `steps = [100, 0, 200]`. -/
theorem ik_inhibited_steps_zero_product_witness :
    Sized K3 cfg3_y_inhibited mem3 ∧
    (∃ mem', ik_kinematics K3 cfg3_y_inhibited mem3 0 = some (K3.TG_OK, mem') ∧
      ∀ (i k : Nat) (ax : cfgAxis) (mo : cfgMotor ℚ),
        cfg3_y_inhibited.a[i]? = some ax → ax.axis_mode = K3.AXIS_INHIBITED →
        cfg3_y_inhibited.m[k]? = some mo → mo.motor_map = i →
        mem'.steps[k]? = some (0 * mo.steps_per_unit) ∧
        (0 * mo.steps_per_unit = 0 → mem'.steps[k]? = some 0)) ∧
    ik_kinematics K3 cfg3_y_inhibited mem3 0 =
      some (0, ⟨[1, -2, 1/2], [1, 0, 1/2], [100, 0, 200]⟩) :=
  ⟨by decide, ik_inhibited_steps_zero_product K3 cfg3_y_inhibited mem3 0 (by decide),
    by norm_num [ik_kinematics, _cartesian_kinematics, for_u8, cartesian_body, axis_body,
      motor_body, load, store, K3, cfg3_y_inhibited, mem3]⟩

/-- C3 (identity property of the cartesian transform): for a travel vector with
`AXES` entries and any `microseconds`, `_cartesian_kinematics` returns `TG_OK`
with `joint[i] = travel[i]` for every `i < AXES` (so `joint` is `travel` as a
whole), and the result is the same for any other value of `microseconds`. -/
theorem cartesian_identity {α : Type} (K : Consts) (mem : Mem α) (us : α)
    (ht : mem.travel.length = K.AXES) (hj : mem.joint.length = K.AXES) :
    ∃ mem', _cartesian_kinematics K mem us = some (K.TG_OK, mem') ∧
      (∀ i, i < K.AXES → mem'.joint[i]? = mem.travel[i]?) ∧
      mem'.joint = mem.travel ∧
      ∀ us', _cartesian_kinematics K mem us' = _cartesian_kinematics K mem us := by
  obtain ⟨mem', hrun, _, _, hL, hJ⟩ := cartesian_spec K mem us (by omega) hj
  refine ⟨mem', hrun, hJ, ?_, fun _ => rfl⟩
  apply List.ext_getElem?
  intro i
  by_cases hi : i < K.AXES
  · exact hJ i hi
  · rw [List.getElem?_eq_none (by omega), List.getElem?_eq_none (by omega)]

/-- C3, at `travel = [1, -2, 1/2]` with a stale `joint = [7, 7, 7]`. -/
theorem cartesian_identity_witness :
    mem3.travel.length = K3.AXES ∧ mem3.joint.length = K3.AXES ∧
    (∃ mem', _cartesian_kinematics K3 mem3 5 = some (K3.TG_OK, mem') ∧
      (∀ i, i < K3.AXES → mem'.joint[i]? = mem3.travel[i]?) ∧
      mem'.joint = mem3.travel ∧
      ∀ us', _cartesian_kinematics K3 mem3 us' = _cartesian_kinematics K3 mem3 5) :=
  ⟨by decide, by decide, cartesian_identity K3 mem3 5 (by decide) (by decide)⟩

/-! ## Ganged motors -/

/-- C4 fails as stated: with Z inhibited and `travel = [0, 0, 1]` both Z motors
end with ratio `0`, not `travel[2] = 1`; and with `steps_per_unit = 0` on the
second Z motor its ratio is `0 / 0`, again not `travel[2] = 1`, while the first Z
motor has ratio `1`. -/
theorem ik_ganged_ratio_counterexample :
    ((ik_kinematics K34 cfg34_z_inhibited mem34 0).bind
        (fun r => steps_ratio cfg34_z_inhibited r.2.steps 2) = some 0 ∧
      (ik_kinematics K34 cfg34_z_inhibited mem34 0).bind
        (fun r => steps_ratio cfg34_z_inhibited r.2.steps 3) = some 0 ∧
      mem34.travel[2]? = some 1 ∧
      (ik_kinematics K34 cfg34_z_inhibited mem34 0).bind
        (fun r => steps_ratio cfg34_z_inhibited r.2.steps 2) ≠ mem34.travel[2]?) ∧
    ((ik_kinematics K34 cfg34_zero_scale mem34 0).bind
        (fun r => steps_ratio cfg34_zero_scale r.2.steps 2) = some 1 ∧
      (ik_kinematics K34 cfg34_zero_scale mem34 0).bind
        (fun r => steps_ratio cfg34_zero_scale r.2.steps 3) = some (0 / 0) ∧
      (ik_kinematics K34 cfg34_zero_scale mem34 0).bind
        (fun r => steps_ratio cfg34_zero_scale r.2.steps 3) ≠ mem34.travel[2]?) := by
  have h1 : ik_kinematics K34 cfg34_z_inhibited mem34 0 =
      some (0, ⟨[0, 0, 1], [0, 0, 0], [0, 0, 0, 0]⟩) := by
    norm_num [ik_kinematics, _cartesian_kinematics, for_u8, cartesian_body, axis_body,
      motor_body, load, store, K34, cfg34_z_inhibited, mem34]
  have h2 : ik_kinematics K34 cfg34_zero_scale mem34 0 =
      some (0, ⟨[0, 0, 1], [0, 0, 1], [0, 0, 400, 0]⟩) := by
    norm_num [ik_kinematics, _cartesian_kinematics, for_u8, cartesian_body, axis_body,
      motor_body, load, store, K34, cfg34_zero_scale, mem34]
  rw [h1, h2]
  norm_num [steps_ratio, cfg34_z_inhibited, cfg34_zero_scale, mem34]

/-- C4, amended (ganged-motor consistency): if motors `k1` and `k2` are both
mapped to axis `i`, both are scaled from the same value `e`, the one left in
`joint[i]` (`travel[i]` when axis `i` is not inhibited, `0` when it is):
`steps[k1] = e * steps_per_unit[k1]` and `steps[k2] = e * steps_per_unit[k2]`.
Each quotient `steps[k] / steps_per_unit[k]` is therefore
`(e * steps_per_unit[k]) / steps_per_unit[k]`, and the two quotients are equal to
`e` whenever dividing by `steps_per_unit[k]` undoes the multiplication by it; no
law of arithmetic is assumed. -/
theorem ik_ganged_common_joint {α : Type} [Zero α] [Mul α] [Div α] (K : Consts)
    (cfg : cfgStruct α) (mem : Mem α) (us : α) (hs : Sized K cfg mem) :
    ∃ mem', ik_kinematics K cfg mem us = some (K.TG_OK, mem') ∧
      ∀ (i k1 k2 : Nat) (ax : cfgAxis) (t e : α) (m1 m2 : cfgMotor α),
        cfg.a[i]? = some ax → mem.travel[i]? = some t →
        cfg.m[k1]? = some m1 → cfg.m[k2]? = some m2 →
        m1.motor_map = i → m2.motor_map = i →
        e = (if ax.axis_mode = K.AXIS_INHIBITED then 0 else t) →
        mem'.joint[i]? = some e ∧
        mem'.steps[k1]? = some (e * m1.steps_per_unit) ∧
        mem'.steps[k2]? = some (e * m2.steps_per_unit) ∧
        steps_ratio cfg mem'.steps k1 =
          some (e * m1.steps_per_unit / m1.steps_per_unit) ∧
        steps_ratio cfg mem'.steps k2 =
          some (e * m2.steps_per_unit / m2.steps_per_unit) ∧
        (e * m1.steps_per_unit / m1.steps_per_unit = e →
          e * m2.steps_per_unit / m2.steps_per_unit = e →
          steps_ratio cfg mem'.steps k1 = some e ∧
          steps_ratio cfg mem'.steps k2 = some e) := by
  obtain ⟨mem', hrun, hp⟩ := ik_kinematics_spec K cfg mem us hs
  refine ⟨mem', hrun, ?_⟩
  intro i k1 k2 ax t e m1 m2 hax ht h1 h2 hm1 hm2 he
  have hlt : i < K.AXES := by
    have := lt_of_getElem?_some hax
    have := hs.2.2.2.1
    omega
  have hj : mem'.joint[i]? = some e := by
    rw [hp.joint_at i ax hax, ht, he]
    split <;> rfl
  have hst : ∀ (k : Nat) (mo : cfgMotor α), cfg.m[k]? = some mo → mo.motor_map = i →
      mem'.steps[k]? = some (e * mo.steps_per_unit) := by
    intro k mo hk hmi
    rw [hp.steps_at k mo hk, hmi, if_pos hlt, hj]
    rfl
  have hq : ∀ (k : Nat) (mo : cfgMotor α), cfg.m[k]? = some mo → mo.motor_map = i →
      steps_ratio cfg mem'.steps k =
        some (e * mo.steps_per_unit / mo.steps_per_unit) := by
    intro k mo hk hmi
    simp only [steps_ratio, hst k mo hk hmi, hk, Option.bind_eq_bind, Option.some_bind,
      Option.pure_def]
  refine ⟨hj, hst k1 m1 h1 hm1, hst k2 m2 h2 hm2, hq k1 m1 h1 hm1, hq k2 m2 h2 hm2, ?_⟩
  intro hd1 hd2
  exact ⟨by rw [hq k1 m1 h1 hm1, hd1], by rw [hq k2 m2 h2 hm2, hd2]⟩

/-- C4 amended, at the ganged example `motor_map = [0,1,2,2]`,
`steps_per_unit = [100,100,400,400]`, `travel = [0,0,1]`: the run yields
`steps = [0, 0, 400, 400]` and both Z quotients are `1 = travel[2]`. -/
theorem ik_ganged_common_joint_witness :
    Sized K34 cfg34 mem34 ∧
    (∃ mem', ik_kinematics K34 cfg34 mem34 0 = some (K34.TG_OK, mem') ∧
      ∀ (i k1 k2 : Nat) (ax : cfgAxis) (t e : ℚ) (m1 m2 : cfgMotor ℚ),
        cfg34.a[i]? = some ax → mem34.travel[i]? = some t →
        cfg34.m[k1]? = some m1 → cfg34.m[k2]? = some m2 →
        m1.motor_map = i → m2.motor_map = i →
        e = (if ax.axis_mode = K34.AXIS_INHIBITED then 0 else t) →
        mem'.joint[i]? = some e ∧
        mem'.steps[k1]? = some (e * m1.steps_per_unit) ∧
        mem'.steps[k2]? = some (e * m2.steps_per_unit) ∧
        steps_ratio cfg34 mem'.steps k1 =
          some (e * m1.steps_per_unit / m1.steps_per_unit) ∧
        steps_ratio cfg34 mem'.steps k2 =
          some (e * m2.steps_per_unit / m2.steps_per_unit) ∧
        (e * m1.steps_per_unit / m1.steps_per_unit = e →
          e * m2.steps_per_unit / m2.steps_per_unit = e →
          steps_ratio cfg34 mem'.steps k1 = some e ∧
          steps_ratio cfg34 mem'.steps k2 = some e)) ∧
    ik_kinematics K34 cfg34 mem34 0 =
      some (0, ⟨[0, 0, 1], [0, 0, 1], [0, 0, 400, 400]⟩) ∧
    (ik_kinematics K34 cfg34 mem34 0).bind (fun r => steps_ratio cfg34 r.2.steps 2) =
      some 1 ∧
    (ik_kinematics K34 cfg34 mem34 0).bind (fun r => steps_ratio cfg34 r.2.steps 3) =
      some 1 := by
  have h : ik_kinematics K34 cfg34 mem34 0 =
      some (0, ⟨[0, 0, 1], [0, 0, 1], [0, 0, 400, 400]⟩) := by
    norm_num [ik_kinematics, _cartesian_kinematics, for_u8, cartesian_body, axis_body,
      motor_body, load, store, K34, cfg34, mem34]
  refine ⟨by decide, ik_ganged_common_joint K34 cfg34 mem34 0 (by decide), h, ?_, ?_⟩
  · rw [h]; norm_num [steps_ratio, cfg34]
  · rw [h]; norm_num [steps_ratio, cfg34]

/-! ## Status and out-of-range motor maps -/

/-- C5 fails as stated: with `motor_map = [0, 7, 2]` on three axes the call
returns `TG_OK` (not a failure status) and `steps` changes from `[9, 9, 9]` to
`[100, 9, 200]`. -/
theorem ik_invalid_map_counterexample :
    (∃ mo ∈ cfg3_bad_map.m, ¬ mo.motor_map < K3.AXES) ∧
    ik_kinematics K3 cfg3_bad_map mem3 0 =
      some (K3.TG_OK, ⟨[1, -2, 1/2], [1, -2, 1/2], [100, 9, 200]⟩) ∧
    (ik_kinematics K3 cfg3_bad_map mem3 0).map (fun r => r.1) = some K3.TG_OK ∧
    (ik_kinematics K3 cfg3_bad_map mem3 0).map (fun r => r.2.steps) ≠ some mem3.steps := by
  have h : ik_kinematics K3 cfg3_bad_map mem3 0 =
      some (K3.TG_OK, ⟨[1, -2, 1/2], [1, -2, 1/2], [100, 9, 200]⟩) := by
    norm_num [ik_kinematics, _cartesian_kinematics, for_u8, cartesian_body, axis_body,
      motor_body, load, store, K3, cfg3_bad_map, mem3]
  refine ⟨⟨⟨7, 100⟩, by simp [cfg3_bad_map], by decide⟩, h, ?_, ?_⟩
  · rw [h]; rfl
  · rw [h]; simp [mem3]

/-- C5, amended: when some motor has `motor_map` outside `[0, AXES)`,
`ik_kinematics` still returns `TG_OK`; it signals nothing, and the `steps` entry
of every motor with such a `motor_map` is left exactly as it was before the
call. -/
theorem ik_invalid_map_ignored {α : Type} [Zero α] [Mul α] (K : Consts)
    (cfg : cfgStruct α) (mem : Mem α) (us : α) (hs : Sized K cfg mem)
    (hbad : ∃ mo ∈ cfg.m, ¬ mo.motor_map < K.AXES) :
    (∃ (j : Nat) (mo : cfgMotor α), j < K.MOTORS ∧ cfg.m[j]? = some mo ∧
      K.AXES ≤ mo.motor_map) ∧
    ∃ mem', ik_kinematics K cfg mem us = some (K.TG_OK, mem') ∧
      ∀ (j : Nat) (mo : cfgMotor α), cfg.m[j]? = some mo → K.AXES ≤ mo.motor_map →
        mem'.steps[j]? = mem.steps[j]? := by
  constructor
  · obtain ⟨mo, hmem, hge⟩ := hbad
    obtain ⟨j, hj⟩ := List.mem_iff_getElem?.mp hmem
    have hlen := lt_of_getElem?_some hj
    have := hs.2.2.2.2
    exact ⟨j, mo, by omega, hj, by omega⟩
  · obtain ⟨mem', hrun, hp⟩ := ik_kinematics_spec K cfg mem us hs
    refine ⟨mem', hrun, ?_⟩
    intro j mo hj hge
    rw [hp.steps_at j mo hj, if_neg (by omega)]

/-- C5 amended, at `motor_map = [0, 7, 2]` on three axes. -/
theorem ik_invalid_map_ignored_witness :
    Sized K3 cfg3_bad_map mem3 ∧ (∃ mo ∈ cfg3_bad_map.m, ¬ mo.motor_map < K3.AXES) ∧
    ((∃ (j : Nat) (mo : cfgMotor ℚ), j < K3.MOTORS ∧ cfg3_bad_map.m[j]? = some mo ∧
      K3.AXES ≤ mo.motor_map) ∧
    ∃ mem', ik_kinematics K3 cfg3_bad_map mem3 0 = some (K3.TG_OK, mem') ∧
      ∀ (j : Nat) (mo : cfgMotor ℚ), cfg3_bad_map.m[j]? = some mo →
        K3.AXES ≤ mo.motor_map → mem'.steps[j]? = mem3.steps[j]?) :=
  ⟨by decide, ⟨⟨7, 100⟩, by simp [cfg3_bad_map], by decide⟩,
    ik_invalid_map_ignored K3 cfg3_bad_map mem3 0 (by decide)
      ⟨⟨7, 100⟩, by simp [cfg3_bad_map], by decide⟩⟩

/-- C6 (the cartesian conversion is total): on arrays of the declared sizes, with
every `motor_map` below `AXES`, both `ik_kinematics` and the
`_cartesian_kinematics` call inside it return, and the status is `TG_OK`, for any
`travel` and `microseconds`. -/
theorem ik_returns_ok {α : Type} [Zero α] [Mul α] (K : Consts) (cfg : cfgStruct α)
    (mem : Mem α) (us : α) (hs : Sized K cfg mem)
    (_hmap : ∀ mo ∈ cfg.m, mo.motor_map < K.AXES) :
    (∃ mem', ik_kinematics K cfg mem us = some (K.TG_OK, mem')) ∧
    (∃ st, _cartesian_kinematics K mem us = some (K.TG_OK, st)) := by
  obtain ⟨mem', hrun, _⟩ := ik_kinematics_spec K cfg mem us hs
  obtain ⟨st, hc, _⟩ := cartesian_spec K mem us hs.1 hs.2.1
  exact ⟨⟨mem', hrun⟩, ⟨st, hc⟩⟩

/-- C6, at the three-axis example. -/
theorem ik_returns_ok_witness :
    Sized K3 cfg3 mem3 ∧ (∀ mo ∈ cfg3.m, mo.motor_map < K3.AXES) ∧
    ((∃ mem', ik_kinematics K3 cfg3 mem3 0 = some (K3.TG_OK, mem')) ∧
    (∃ st, _cartesian_kinematics K3 mem3 0 = some (K3.TG_OK, st))) :=
  ⟨by decide, by decide, ik_returns_ok K3 cfg3 mem3 0 (by decide) (by decide)⟩

/-! ## Statelessness -/

/-- With every `motor_map` below `AXES`, the first `MOTORS` entries of `steps`
after the call are given by `travel` and the configuration alone. -/
theorem ik_steps_determined {α : Type} [Zero α] [Mul α] (K : Consts) (cfg : cfgStruct α)
    (mem mem' : Mem α) (hs : Sized K cfg mem) (hp : IkPost K cfg mem mem')
    (hmap : ∀ mo ∈ cfg.m, mo.motor_map < K.AXES) (j : Nat) (hj : j < K.MOTORS) :
    mem'.steps[j]? =
      (cfg.m[j]?).bind (fun mo =>
        (cfg.a[mo.motor_map]?).bind (fun ax =>
          (if ax.axis_mode = K.AXIS_INHIBITED then some 0
            else mem.travel[mo.motor_map]?).map (fun v => v * mo.steps_per_unit))) := by
  obtain ⟨_, _, _, hal, hml⟩ := hs
  have hjm : j < cfg.m.length := by omega
  have hmo : cfg.m[j]? = some cfg.m[j] := List.getElem?_eq_getElem hjm
  have hlt : (cfg.m[j]).motor_map < K.AXES := hmap _ (List.getElem?_mem hmo)
  have hia : (cfg.m[j]).motor_map < cfg.a.length := by omega
  have hax := List.getElem?_eq_getElem hia
  rw [hp.steps_at j _ hmo, if_pos hlt, hp.joint_at _ _ hax, hmo, Option.some_bind, hax,
    Option.some_bind]

/-- C7 (statelessness): with every `motor_map` below `AXES`, two runs on the same
`travel` and configuration, started with arbitrary different contents of `steps`
and of the local `joint` and with different `microseconds`, both return, with
the same status and the same first `MOTORS` entries of `steps`. -/
theorem ik_stateless {α : Type} [Zero α] [Mul α] (K : Consts) (cfg : cfgStruct α)
    (mem1 mem2 : Mem α) (us1 us2 : α) (hs1 : Sized K cfg mem1) (hs2 : Sized K cfg mem2)
    (htravel : mem1.travel = mem2.travel)
    (hmap : ∀ mo ∈ cfg.m, mo.motor_map < K.AXES) :
    ∃ r1 r2, ik_kinematics K cfg mem1 us1 = some r1 ∧
      ik_kinematics K cfg mem2 us2 = some r2 ∧ r1.1 = r2.1 ∧
      r1.2.steps.take K.MOTORS = r2.2.steps.take K.MOTORS := by
  obtain ⟨m1, hrun1, hp1⟩ := ik_kinematics_spec K cfg mem1 us1 hs1
  obtain ⟨m2, hrun2, hp2⟩ := ik_kinematics_spec K cfg mem2 us2 hs2
  refine ⟨_, _, hrun1, hrun2, rfl, ?_⟩
  apply List.ext_getElem?
  intro j
  by_cases hj : j < K.MOTORS
  · rw [List.getElem?_take_of_lt hj, List.getElem?_take_of_lt hj,
      ik_steps_determined K cfg mem1 m1 hs1 hp1 hmap j hj,
      ik_steps_determined K cfg mem2 m2 hs2 hp2 hmap j hj, htravel]
  · rw [List.getElem?_take_eq_none (by omega), List.getElem?_take_eq_none (by omega)]

/-- C7, at the three-axis example run from two different stale memories and with
two different `microseconds`. -/
theorem ik_stateless_witness :
    Sized K3 cfg3 mem3 ∧ Sized K3 cfg3 mem3_again ∧ mem3.travel = mem3_again.travel ∧
    (∀ mo ∈ cfg3.m, mo.motor_map < K3.AXES) ∧ mem3.steps ≠ mem3_again.steps ∧
    (∃ r1 r2, ik_kinematics K3 cfg3 mem3 1 = some r1 ∧
      ik_kinematics K3 cfg3 mem3_again 2 = some r2 ∧ r1.1 = r2.1 ∧
      r1.2.steps.take K3.MOTORS = r2.2.steps.take K3.MOTORS) :=
  ⟨by decide, by decide, rfl, by decide, by norm_num [mem3, mem3_again],
    ik_stateless K3 cfg3 mem3 mem3_again 1 2 (by decide) (by decide) rfl (by decide)⟩

/-! ## The per-motor form -/

/-- Inside the tables the effective joint value exists and is `0` or `travel[i]`. -/
theorem effective_joint_of_lt {α : Type} [Zero α] (K : Consts) (cfg : cfgStruct α)
    (mem : Mem α) (hs : Sized K cfg mem) (i : Nat) (hi : i < K.AXES) :
    ∃ (ax : cfgAxis) (t : α), cfg.a[i]? = some ax ∧ mem.travel[i]? = some t ∧
      effective_joint K cfg mem.travel i =
        some (if ax.axis_mode = K.AXIS_INHIBITED then 0 else t) := by
  obtain ⟨htl, _, _, hal, _⟩ := hs
  have hia : i < cfg.a.length := by omega
  have hit : i < mem.travel.length := by omega
  refine ⟨cfg.a[i], mem.travel[i], List.getElem?_eq_getElem hia,
    List.getElem?_eq_getElem hit, ?_⟩
  simp [effective_joint, load, List.getElem?_eq_getElem hia, List.getElem?_eq_getElem hit]

/-- After `ik_kinematics` a motor with `motor_map` below `AXES` holds the
effective joint value of its mapped axis times its `steps_per_unit`. -/
theorem ik_steps_effective {α : Type} [Zero α] [Mul α] (K : Consts) (cfg : cfgStruct α)
    (mem mem' : Mem α) (hs : Sized K cfg mem) (hp : IkPost K cfg mem mem') (j : Nat)
    (mo : cfgMotor α) (hj : cfg.m[j]? = some mo) (hlt : mo.motor_map < K.AXES) :
    mem'.steps[j]? =
      (effective_joint K cfg mem.travel mo.motor_map).map
        (fun e => e * mo.steps_per_unit) := by
  obtain ⟨ax, t, hax, ht, he⟩ := effective_joint_of_lt K cfg mem hs mo.motor_map hlt
  rw [hp.steps_at j mo hj, if_pos hlt, hp.joint_at _ ax hax, he, ht]
  split <;> rfl

/-- Effect of the per-motor pass: every motor below `MOTORS` receives the
effective joint value of its mapped axis times its `steps_per_unit`; the rest of
`steps` is kept. -/
theorem map_per_motor_spec {α : Type} [Zero α] [Mul α] (K : Consts) (cfg : cfgStruct α)
    (mem : Mem α) (hs : Sized K cfg mem) (hmap : ∀ mo ∈ cfg.m, mo.motor_map < K.AXES) :
    ∃ st, map_per_motor K cfg mem = some st ∧ st.travel = mem.travel ∧
      st.steps.length = mem.steps.length ∧
      (∀ (j : Nat) (mo : cfgMotor α), cfg.m[j]? = some mo →
        st.steps[j]? =
          (effective_joint K cfg mem.travel mo.motor_map).map
            (fun e => e * mo.steps_per_unit)) ∧
      (∀ j, K.MOTORS ≤ j → st.steps[j]? = mem.steps[j]?) := by
  have hml := hs.2.2.2.2
  have hsl := hs.2.2.1
  obtain ⟨s', hrun, hT, hL, hA, hB⟩ :=
    for_u8_rule K.MOTORS K.MOTORS_u8 (per_motor_body K cfg)
      (fun j s => s.travel = mem.travel ∧ s.steps.length = mem.steps.length ∧
        (∀ (k : Nat) (mo : cfgMotor α), cfg.m[k]? = some mo → k < j →
          s.steps[k]? =
            (effective_joint K cfg mem.travel mo.motor_map).map
              (fun e => e * mo.steps_per_unit)) ∧
        (∀ k, j ≤ k → s.steps[k]? = mem.steps[k]?))
      mem ⟨rfl, rfl, fun k _ _ hk => absurd hk (Nat.not_lt_zero k), fun _ _ => rfl⟩
      (by
        intro j s hj ⟨hT, hL, hA, hB⟩
        have hjm : j < cfg.m.length := by omega
        have hmo : cfg.m[j]? = some cfg.m[j] := List.getElem?_eq_getElem hjm
        have hlt : (cfg.m[j]).motor_map < K.AXES := hmap _ (List.getElem?_mem hmo)
        obtain ⟨ax, t, _, _, he⟩ := effective_joint_of_lt K cfg mem hs _ hlt
        have hjs : j < s.steps.length := by omega
        refine ⟨⟨s.travel, s.joint, s.steps.set j
            ((if ax.axis_mode = K.AXIS_INHIBITED then 0 else t) *
              (cfg.m[j]).steps_per_unit)⟩, ?_, hT, by simpa using hL, ?_, ?_⟩
        · simp [per_motor_body, load, store, hmo, hT, he, hjs]
        · intro k mo hk hkj
          by_cases hkeq : k = j
          · subst hkeq
            have hmoeq : cfg.m[k] = mo := Option.some.inj (hmo.symm.trans hk)
            simp [List.getElem?_set_self hjs, ← hmoeq, he]
          · have hne : j ≠ k := fun h => hkeq h.symm
            simp only [List.getElem?_set_ne hne]
            exact hA k mo hk (by omega)
        · intro k hk
          have hne : j ≠ k := by omega
          simp only [List.getElem?_set_ne hne]
          exact hB k (by omega))
  refine ⟨s', hrun, hT, hL, ?_, hB⟩
  intro j mo hj
  have := lt_of_getElem?_some hj
  exact hA j mo hj (by omega)

/-- C8 (the double loop refines the per-motor form): with every `motor_map`
below `AXES`, both `ik_kinematics` and the single pass
`steps[j] = eff(motor_map[j]) * steps_per_unit[j]` return, and they leave the same
`steps` array; each motor's entry is the one product coming from its mapped
axis. -/
theorem ik_equiv_per_motor {α : Type} [Zero α] [Mul α] (K : Consts) (cfg : cfgStruct α)
    (mem : Mem α) (us : α) (hs : Sized K cfg mem)
    (hmap : ∀ mo ∈ cfg.m, mo.motor_map < K.AXES) :
    ∃ mem' st, ik_kinematics K cfg mem us = some (K.TG_OK, mem') ∧
      map_per_motor K cfg mem = some st ∧ mem'.steps = st.steps ∧
      ∀ (j : Nat) (mo : cfgMotor α), cfg.m[j]? = some mo →
        mem'.steps[j]? =
          (effective_joint K cfg mem.travel mo.motor_map).map
            (fun e => e * mo.steps_per_unit) := by
  obtain ⟨mem', hrun, hp⟩ := ik_kinematics_spec K cfg mem us hs
  obtain ⟨st, hpm, _, _, hA, hB⟩ := map_per_motor_spec K cfg mem hs hmap
  have hml := hs.2.2.2.2
  have hpt : ∀ (j : Nat) (mo : cfgMotor α), cfg.m[j]? = some mo →
      mem'.steps[j]? =
        (effective_joint K cfg mem.travel mo.motor_map).map
          (fun e => e * mo.steps_per_unit) := fun j mo hj =>
    ik_steps_effective K cfg mem mem' hs hp j mo hj (hmap mo (List.getElem?_mem hj))
  refine ⟨mem', st, hrun, hpm, ?_, hpt⟩
  apply List.ext_getElem?
  intro j
  by_cases hj : j < K.MOTORS
  · have hmo : cfg.m[j]? = some cfg.m[j] := List.getElem?_eq_getElem (by omega)
    rw [hpt j _ hmo, hA j _ hmo]
  · rw [hp.steps_beyond j (by omega), hB j (by omega)]

/-- C8, at the ganged example, where the per-motor pass also gives
`steps = [0, 0, 400, 400]`. -/
theorem ik_equiv_per_motor_witness :
    Sized K34 cfg34 mem34 ∧ (∀ mo ∈ cfg34.m, mo.motor_map < K34.AXES) ∧
    (∃ mem' st, ik_kinematics K34 cfg34 mem34 0 = some (K34.TG_OK, mem') ∧
      map_per_motor K34 cfg34 mem34 = some st ∧ mem'.steps = st.steps ∧
      ∀ (j : Nat) (mo : cfgMotor ℚ), cfg34.m[j]? = some mo →
        mem'.steps[j]? =
          (effective_joint K34 cfg34 mem34.travel mo.motor_map).map
            (fun e => e * mo.steps_per_unit)) ∧
    map_per_motor K34 cfg34 mem34 = some ⟨[0, 0, 1], [7, 7, 7], [0, 0, 400, 400]⟩ :=
  ⟨by decide, by decide, ik_equiv_per_motor K34 cfg34 mem34 0 (by decide) (by decide),
    by norm_num [map_per_motor, per_motor_body, effective_joint, for_u8, load, store,
      K34, cfg34, mem34]⟩

/-! ## Frame conditions on `travel` and `joint` -/

/-- C9 (the travel vector is never mutated): on arrays of the declared sizes,
with `travel`, `joint` and `steps` separate arrays, `ik_kinematics` returns a
memory whose `travel` is the one it was given, entry for entry and also for
inhibited axes; the same holds for `_cartesian_kinematics` alone. -/
theorem ik_travel_unchanged {α : Type} [Zero α] [Mul α] (K : Consts) (cfg : cfgStruct α)
    (mem : Mem α) (us : α) (hs : Sized K cfg mem) :
    (∃ mem', ik_kinematics K cfg mem us = some (K.TG_OK, mem') ∧
      mem'.travel = mem.travel ∧ ∀ i, i < K.AXES → mem'.travel[i]? = mem.travel[i]?) ∧
    (∃ st, _cartesian_kinematics K mem us = some (K.TG_OK, st) ∧
      st.travel = mem.travel ∧ ∀ i, i < K.AXES → st.travel[i]? = mem.travel[i]?) := by
  obtain ⟨mem', hrun, hp⟩ := ik_kinematics_spec K cfg mem us hs
  obtain ⟨st, hc, hT, _⟩ := cartesian_spec K mem us hs.1 hs.2.1
  exact ⟨⟨mem', hrun, hp.travel_eq, fun i _ => by rw [hp.travel_eq]⟩,
    ⟨st, hc, hT, fun i _ => by rw [hT]⟩⟩

/-- C9, at the example with axis Y inhibited. -/
theorem ik_travel_unchanged_witness :
    Sized K3 cfg3_y_inhibited mem3 ∧
    ((∃ mem', ik_kinematics K3 cfg3_y_inhibited mem3 0 = some (K3.TG_OK, mem') ∧
      mem'.travel = mem3.travel ∧
      ∀ i, i < K3.AXES → mem'.travel[i]? = mem3.travel[i]?) ∧
    (∃ st, _cartesian_kinematics K3 mem3 0 = some (K3.TG_OK, st) ∧
      st.travel = mem3.travel ∧ ∀ i, i < K3.AXES → st.travel[i]? = mem3.travel[i]?)) :=
  ⟨by decide, ik_travel_unchanged K3 cfg3_y_inhibited mem3 0 (by decide)⟩

/-- C10 fails as stated: with axis Y inhibited and `travel[1] = -2`, the entry
`joint[1]` holds `0` when `ik_kinematics` returns, not `travel[1]`. -/
theorem ik_inhibited_joint_counterexample :
    cfg3_y_inhibited.a[1]? = some ⟨K3.AXIS_INHIBITED⟩ ∧
    mem3.travel[1]? = some (-2 : ℚ) ∧
    (_cartesian_kinematics K3 mem3 0).map (fun r => r.2.joint[1]?) =
      some (some (-2 : ℚ)) ∧
    (ik_kinematics K3 cfg3_y_inhibited mem3 0).map (fun r => r.2.joint[1]?) =
      some (some 0) ∧
    (ik_kinematics K3 cfg3_y_inhibited mem3 0).map (fun r => r.2.joint[1]?) ≠
      some mem3.travel[1]? := by
  have hc : _cartesian_kinematics K3 mem3 0 =
      some (0, ⟨[1, -2, 1/2], [1, -2, 1/2], [9, 9, 9]⟩) := by
    norm_num [_cartesian_kinematics, for_u8, cartesian_body, load, store, K3, mem3]
  have h : ik_kinematics K3 cfg3_y_inhibited mem3 0 =
      some (0, ⟨[1, -2, 1/2], [1, 0, 1/2], [100, 0, 200]⟩) := by
    norm_num [ik_kinematics, _cartesian_kinematics, for_u8, cartesian_body, axis_body,
      motor_body, load, store, K3, cfg3_y_inhibited, mem3]
  rw [h, hc]
  refine ⟨by decide, rfl, rfl, rfl, ?_⟩
  have ht : mem3.travel[1]? = some (-2 : ℚ) := rfl
  rw [ht]
  norm_num

/-- C10, amended: the mapping stage overwrites the local `joint[i]` of every
inhibited axis with `0`; only a non-inhibited axis still holds the value
produced by the transform, `travel[i]`, on return. The caller's `travel[i]` is
kept in both cases, and a motor mapped to an inhibited axis gets `0` times its
`steps_per_unit`. -/
theorem ik_inhibited_joint_zeroed {α : Type} [Zero α] [Mul α] (K : Consts)
    (cfg : cfgStruct α) (mem : Mem α) (us : α) (hs : Sized K cfg mem) :
    ∃ mem', ik_kinematics K cfg mem us = some (K.TG_OK, mem') ∧
      ∀ (i : Nat) (ax : cfgAxis), cfg.a[i]? = some ax →
        (ax.axis_mode = K.AXIS_INHIBITED → mem'.joint[i]? = some 0) ∧
        (ax.axis_mode ≠ K.AXIS_INHIBITED → mem'.joint[i]? = mem.travel[i]?) ∧
        mem'.travel[i]? = mem.travel[i]? ∧
        (ax.axis_mode = K.AXIS_INHIBITED →
          ∀ (j : Nat) (mo : cfgMotor α), cfg.m[j]? = some mo → mo.motor_map = i →
            mem'.steps[j]? = some (0 * mo.steps_per_unit)) := by
  obtain ⟨mem', hrun, hp⟩ := ik_kinematics_spec K cfg mem us hs
  refine ⟨mem', hrun, ?_⟩
  intro i ax hax
  have hlt : i < K.AXES := by
    have := lt_of_getElem?_some hax
    have := hs.2.2.2.1
    omega
  refine ⟨fun hinh => by rw [hp.joint_at i ax hax, if_pos hinh],
    fun hni => by rw [hp.joint_at i ax hax, if_neg hni], by rw [hp.travel_eq], ?_⟩
  intro hinh j mo hj hmi
  rw [hp.steps_at j mo hj, hmi, if_pos hlt, hp.joint_at i ax hax, if_pos hinh]
  rfl

/-- C10 amended, at the example with axis Y inhibited. -/
theorem ik_inhibited_joint_zeroed_witness :
    Sized K3 cfg3_y_inhibited mem3 ∧
    (∃ mem', ik_kinematics K3 cfg3_y_inhibited mem3 0 = some (K3.TG_OK, mem') ∧
      ∀ (i : Nat) (ax : cfgAxis), cfg3_y_inhibited.a[i]? = some ax →
        (ax.axis_mode = K3.AXIS_INHIBITED → mem'.joint[i]? = some 0) ∧
        (ax.axis_mode ≠ K3.AXIS_INHIBITED → mem'.joint[i]? = mem3.travel[i]?) ∧
        mem'.travel[i]? = mem3.travel[i]? ∧
        (ax.axis_mode = K3.AXIS_INHIBITED →
          ∀ (j : Nat) (mo : cfgMotor ℚ), cfg3_y_inhibited.m[j]? = some mo →
            mo.motor_map = i → mem'.steps[j]? = some (0 * mo.steps_per_unit))) :=
  ⟨by decide, ik_inhibited_joint_zeroed K3 cfg3_y_inhibited mem3 0 (by decide)⟩

/-! ## Dimensions and unmapped motors -/

/-- C11 (dimension invariants): with `travel` of `AXES` entries and `steps` of
`MOTORS` entries, the `joint` built by `_cartesian_kinematics` has exactly `AXES`
entries, and after `ik_kinematics` both `joint` has `AXES` and `steps` has
`MOTORS` entries; whatever the length of the caller's `steps`, the call keeps
that length and leaves every entry at an index `>= MOTORS` as it was. -/
theorem ik_dimensions {α : Type} [Zero α] [Mul α] (K : Consts) (cfg : cfgStruct α)
    (mem : Mem α) (us : α) (hs : Sized K cfg mem) :
    (∃ st, _cartesian_kinematics K mem us = some (K.TG_OK, st) ∧
      st.joint.length = K.AXES) ∧
    (∃ mem', ik_kinematics K cfg mem us = some (K.TG_OK, mem') ∧
      mem'.joint.length = K.AXES ∧ mem'.travel.length = mem.travel.length ∧
      mem'.steps.length = mem.steps.length ∧
      (mem.steps.length = K.MOTORS → mem'.steps.length = K.MOTORS) ∧
      (mem.travel.length = K.AXES → mem'.travel.length = K.AXES) ∧
      ∀ j, K.MOTORS ≤ j → mem'.steps[j]? = mem.steps[j]?) := by
  obtain ⟨st, hc, _, _, hL, _⟩ := cartesian_spec K mem us hs.1 hs.2.1
  obtain ⟨mem', hrun, hp⟩ := ik_kinematics_spec K cfg mem us hs
  exact ⟨⟨st, hc, hL⟩, ⟨mem', hrun, hp.joint_len, by rw [hp.travel_eq], hp.steps_len,
    fun h => hp.steps_len.trans h, fun h => by rw [hp.travel_eq]; exact h,
    hp.steps_beyond⟩⟩

/-- C11, at the three-axis example, where `travel` has 3 and `steps` has 3
entries. -/
theorem ik_dimensions_witness :
    Sized K3 cfg3 mem3 ∧ mem3.travel.length = K3.AXES ∧ mem3.steps.length = K3.MOTORS ∧
    ((∃ st, _cartesian_kinematics K3 mem3 0 = some (K3.TG_OK, st) ∧
      st.joint.length = K3.AXES) ∧
    (∃ mem', ik_kinematics K3 cfg3 mem3 0 = some (K3.TG_OK, mem') ∧
      mem'.joint.length = K3.AXES ∧ mem'.travel.length = mem3.travel.length ∧
      mem'.steps.length = mem3.steps.length ∧
      (mem3.steps.length = K3.MOTORS → mem'.steps.length = K3.MOTORS) ∧
      (mem3.travel.length = K3.AXES → mem'.travel.length = K3.AXES) ∧
      ∀ j, K3.MOTORS ≤ j → mem'.steps[j]? = mem3.steps[j]?)) :=
  ⟨by decide, by decide, by decide, ik_dimensions K3 cfg3 mem3 0 (by decide)⟩

/-- C13 (unmapped motors are silently skipped): for arbitrary `motor_map` values
the call returns `TG_OK`; a motor whose `motor_map` is `>= AXES` keeps the
`steps` entry it had before the call, and every motor whose `motor_map` is below
`AXES` is written with its scaled value, the effective joint value of its axis
times its `steps_per_unit`. -/
theorem ik_unmapped_motor_skipped {α : Type} [Zero α] [Mul α] (K : Consts)
    (cfg : cfgStruct α) (mem : Mem α) (us : α) (hs : Sized K cfg mem) :
    ∃ mem', ik_kinematics K cfg mem us = some (K.TG_OK, mem') ∧
      ∀ (j : Nat) (mo : cfgMotor α), cfg.m[j]? = some mo →
        (K.AXES ≤ mo.motor_map → mem'.steps[j]? = mem.steps[j]?) ∧
        (mo.motor_map < K.AXES →
          ∃ e, effective_joint K cfg mem.travel mo.motor_map = some e ∧
            mem'.steps[j]? = some (e * mo.steps_per_unit)) := by
  obtain ⟨mem', hrun, hp⟩ := ik_kinematics_spec K cfg mem us hs
  refine ⟨mem', hrun, ?_⟩
  intro j mo hj
  constructor
  · intro hge
    rw [hp.steps_at j mo hj, if_neg (by omega)]
  · intro hlt
    obtain ⟨ax, t, _, _, he⟩ := effective_joint_of_lt K cfg mem hs mo.motor_map hlt
    refine ⟨_, he, ?_⟩
    rw [ik_steps_effective K cfg mem mem' hs hp j mo hj hlt, he]
    rfl

/-- C13, at `motor_map = [0, 7, 2]` on three axes: `steps` goes from `[9, 9, 9]`
to `[100, 9, 200]` and the status is `TG_OK`. -/
theorem ik_unmapped_motor_skipped_witness :
    Sized K3 cfg3_bad_map mem3 ∧
    (∃ mem', ik_kinematics K3 cfg3_bad_map mem3 0 = some (K3.TG_OK, mem') ∧
      ∀ (j : Nat) (mo : cfgMotor ℚ), cfg3_bad_map.m[j]? = some mo →
        (K3.AXES ≤ mo.motor_map → mem'.steps[j]? = mem3.steps[j]?) ∧
        (mo.motor_map < K3.AXES →
          ∃ e, effective_joint K3 cfg3_bad_map mem3.travel mo.motor_map = some e ∧
            mem'.steps[j]? = some (e * mo.steps_per_unit))) ∧
    (ik_kinematics K3 cfg3_bad_map mem3 0).map (fun r => r.2.steps) =
      some [100, 9, 200] :=
  ⟨by decide, ik_unmapped_motor_skipped K3 cfg3_bad_map mem3 0 (by decide),
    by norm_num [ik_kinematics, _cartesian_kinematics, for_u8, cartesian_body, axis_body,
      motor_body, load, store, K3, cfg3_bad_map, mem3]⟩

/-! ## Linearity in `travel` -/

/-- After `ik_kinematics` a motor mapped to axis `mo.motor_map` with axis record
`ax` and travel entry `t` holds `(0 or t) * steps_per_unit`. -/
theorem ik_steps_value {α : Type} [Zero α] [Mul α] (K : Consts) (cfg : cfgStruct α)
    (mem mem' : Mem α) (hs : Sized K cfg mem) (hp : IkPost K cfg mem mem') (j : Nat)
    (mo : cfgMotor α) (ax : cfgAxis) (t : α) (hj : cfg.m[j]? = some mo)
    (hax : cfg.a[mo.motor_map]? = some ax) (ht : mem.travel[mo.motor_map]? = some t) :
    mem'.steps[j]? =
      some ((if ax.axis_mode = K.AXIS_INHIBITED then 0 else t) * mo.steps_per_unit) := by
  have hlt : mo.motor_map < K.AXES := by
    have := lt_of_getElem?_some hax
    have := hs.2.2.2.1
    omega
  rw [hp.steps_at j mo hj, if_pos hlt, hp.joint_at _ ax hax, ht]
  split <;> rfl

/-- C15 (the conversion is linear in `travel`): for a fixed configuration with
every `motor_map` below `AXES`, over a semiring of exact values, the runs on
`t1`, `t2`, `t1 + t2` and `c * t1` all return `TG_OK`, and for every motor
`j < MOTORS` the steps satisfy `steps(t1 + t2)[j] = steps(t1)[j] + steps(t2)[j]`
and `steps(c * t1)[j] = c * steps(t1)[j]`; if every entry of `t1` is `0` then
`steps(t1)[j] = 0`. The prior contents of `steps`, `joint` and the value of
`microseconds` are arbitrary in each run. -/
theorem ik_linear_in_travel {α : Type} [Semiring α] (K : Consts) (cfg : cfgStruct α)
    (m1 m2 m12 mc : Mem α) (c us : α)
    (hs1 : Sized K cfg m1) (hs2 : Sized K cfg m2) (hs12 : Sized K cfg m12)
    (hsc : Sized K cfg mc)
    (hadd : m12.travel = List.zipWith (fun x y => x + y) m1.travel m2.travel)
    (hmul : mc.travel = m1.travel.map (fun x => c * x))
    (hmap : ∀ mo ∈ cfg.m, mo.motor_map < K.AXES) :
    ∃ r1 r2 r12 rc, ik_kinematics K cfg m1 us = some (K.TG_OK, r1) ∧
      ik_kinematics K cfg m2 us = some (K.TG_OK, r2) ∧
      ik_kinematics K cfg m12 us = some (K.TG_OK, r12) ∧
      ik_kinematics K cfg mc us = some (K.TG_OK, rc) ∧
      ∀ j, j < K.MOTORS → ∃ a b, r1.steps[j]? = some a ∧ r2.steps[j]? = some b ∧
        r12.steps[j]? = some (a + b) ∧ rc.steps[j]? = some (c * a) ∧
        ((∀ i, i < K.AXES → m1.travel[i]? = some 0) → a = 0) := by
  obtain ⟨r1, hr1, hp1⟩ := ik_kinematics_spec K cfg m1 us hs1
  obtain ⟨r2, hr2, hp2⟩ := ik_kinematics_spec K cfg m2 us hs2
  obtain ⟨r12, hr12, hp12⟩ := ik_kinematics_spec K cfg m12 us hs12
  obtain ⟨rc, hrc, hpc⟩ := ik_kinematics_spec K cfg mc us hsc
  refine ⟨r1, r2, r12, rc, hr1, hr2, hr12, hrc, ?_⟩
  intro j hj
  have hjm : j < cfg.m.length := by have := hs1.2.2.2.2; omega
  have hmo : cfg.m[j]? = some cfg.m[j] := List.getElem?_eq_getElem hjm
  have hlt : (cfg.m[j]).motor_map < K.AXES := hmap _ (List.getElem?_mem hmo)
  have hia : (cfg.m[j]).motor_map < cfg.a.length := by have := hs1.2.2.2.1; omega
  have hax := List.getElem?_eq_getElem hia
  have hi1 : (cfg.m[j]).motor_map < m1.travel.length := by have := hs1.1; omega
  have hi2 : (cfg.m[j]).motor_map < m2.travel.length := by have := hs2.1; omega
  have ht1 := List.getElem?_eq_getElem hi1
  have ht2 := List.getElem?_eq_getElem hi2
  have ht12 : m12.travel[(cfg.m[j]).motor_map]? =
      some (m1.travel[(cfg.m[j]).motor_map] + m2.travel[(cfg.m[j]).motor_map]) := by
    rw [hadd, List.getElem?_zipWith', ht1, ht2]; rfl
  have htc : mc.travel[(cfg.m[j]).motor_map]? =
      some (c * m1.travel[(cfg.m[j]).motor_map]) := by
    rw [hmul, List.getElem?_map, ht1]; rfl
  refine ⟨_, _, ik_steps_value K cfg m1 r1 hs1 hp1 j _ _ _ hmo hax ht1,
    ik_steps_value K cfg m2 r2 hs2 hp2 j _ _ _ hmo hax ht2, ?_, ?_, ?_⟩
  · rw [ik_steps_value K cfg m12 r12 hs12 hp12 j _ _ _ hmo hax ht12]
    by_cases hinh : (cfg.a[(cfg.m[j]).motor_map]).axis_mode = K.AXIS_INHIBITED
    · simp [hinh]
    · simp [hinh, add_mul]
  · rw [ik_steps_value K cfg mc rc hsc hpc j _ _ _ hmo hax htc]
    by_cases hinh : (cfg.a[(cfg.m[j]).motor_map]).axis_mode = K.AXIS_INHIBITED
    · simp [hinh]
    · simp [hinh, mul_assoc]
  · intro hz
    have h0 := hz _ hlt
    rw [ht1] at h0
    have h0' : m1.travel[(cfg.m[j]).motor_map] = 0 := Option.some.inj h0
    by_cases hinh : (cfg.a[(cfg.m[j]).motor_map]).axis_mode = K.AXIS_INHIBITED
    · simp [hinh]
    · simp [hinh, h0']

/-- C15, at the three-axis example with `t1 = [1, -2, 1/2]`, `t2 = [2, 4, -1]`,
`c = 3`: the steps are `[100, -200, 200]`, `[200, 400, -400]`, their sum
`[300, 200, -200]` and the triple `[300, -600, 600]`. -/
theorem ik_linear_in_travel_witness :
    Sized K3 cfg3 mem3 ∧ Sized K3 cfg3 mem3_b ∧ Sized K3 cfg3 mem3_sum ∧
    Sized K3 cfg3 mem3_scaled ∧
    mem3_sum.travel = List.zipWith (fun x y => x + y) mem3.travel mem3_b.travel ∧
    mem3_scaled.travel = mem3.travel.map (fun x => 3 * x) ∧
    (∀ mo ∈ cfg3.m, mo.motor_map < K3.AXES) ∧
    (∃ r1 r2 r12 rc, ik_kinematics K3 cfg3 mem3 0 = some (K3.TG_OK, r1) ∧
      ik_kinematics K3 cfg3 mem3_b 0 = some (K3.TG_OK, r2) ∧
      ik_kinematics K3 cfg3 mem3_sum 0 = some (K3.TG_OK, r12) ∧
      ik_kinematics K3 cfg3 mem3_scaled 0 = some (K3.TG_OK, rc) ∧
      ∀ j, j < K3.MOTORS → ∃ a b, r1.steps[j]? = some a ∧ r2.steps[j]? = some b ∧
        r12.steps[j]? = some (a + b) ∧ rc.steps[j]? = some (3 * a) ∧
        ((∀ i, i < K3.AXES → mem3.travel[i]? = some 0) → a = 0)) ∧
    (ik_kinematics K3 cfg3 mem3_b 0).map (fun r => r.2.steps) =
      some [200, 400, -400] ∧
    (ik_kinematics K3 cfg3 mem3_sum 0).map (fun r => r.2.steps) =
      some [300, 200, -200] ∧
    (ik_kinematics K3 cfg3 mem3_scaled 0).map (fun r => r.2.steps) =
      some [300, -600, 600] :=
  ⟨by decide, by decide, by decide, by decide,
    by norm_num [mem3, mem3_b, mem3_sum], by norm_num [mem3, mem3_scaled], by decide,
    ik_linear_in_travel K3 cfg3 mem3 mem3_b mem3_sum mem3_scaled 3 0 (by decide)
      (by decide) (by decide) (by decide) (by norm_num [mem3, mem3_b, mem3_sum])
      (by norm_num [mem3, mem3_scaled]) (by decide),
    by norm_num [ik_kinematics, _cartesian_kinematics, for_u8, cartesian_body, axis_body,
      motor_body, load, store, K3, cfg3, mem3_b],
    by norm_num [ik_kinematics, _cartesian_kinematics, for_u8, cartesian_body, axis_body,
      motor_body, load, store, K3, cfg3, mem3_sum],
    by norm_num [ik_kinematics, _cartesian_kinematics, for_u8, cartesian_body, axis_body,
      motor_body, load, store, K3, cfg3, mem3_scaled]⟩

/-! ## Observed runs: iteration counts and index safety -/

/-- A loop whose observed body follows the plain body and maintains a property
of the observer: when the plain loop returns, the observed loop returns the same
state together with an observer satisfying the property at `n`. -/
theorem for_u8_observed {σ τ : Type} (n : Nat) (hn : n ≤ 255)
    (body : Nat → σ → Option σ) (bodyP : Nat → σ × τ → Option (σ × τ))
    (InvP : Nat → τ → Prop)
    (hstep : ∀ i s s1 t, i < n → body i s = some s1 → InvP i t →
      ∃ t1, bodyP i (s, t) = some (s1, t1) ∧ InvP (i + 1) t1) :
    ∀ fuel i s s2 t, i ≤ n → for_u8 n body fuel i s = some s2 → InvP i t →
      ∃ t2, for_u8 n bodyP fuel i (s, t) = some (s2, t2) ∧ InvP n t2 := by
  intro fuel
  induction fuel with
  | zero => intro i s s2 t _ h _; simp [for_u8] at h
  | succ fuel ih =>
    intro i s s2 t hi h hinv
    by_cases hlt : i < n
    · have hmod : (i + 1) % 256 = i + 1 := Nat.mod_eq_of_lt (by omega)
      cases hb : body i s with
      | none => simp [for_u8, hlt, hb] at h
      | some s1 =>
        simp only [for_u8, hlt, if_true, hb, hmod] at h
        obtain ⟨t1, hbp, h1⟩ := hstep i s s1 t hlt hb hinv
        obtain ⟨t2, hrun, h2⟩ := ih (i + 1) s1 s2 t1 (by omega) h h1
        exact ⟨t2, by simp only [for_u8, hlt, if_true, hbp, hmod, hrun], h2⟩
    · have hin : i = n := by omega
      subst hin
      simp only [for_u8, hlt, if_false, Option.some.injEq] at h
      subst h
      exact ⟨t, by simp [for_u8], hinv⟩

/-- Recording an access inside its array and below its loop bound keeps the
record safe. -/
theorem Probe.safe_access (K : Consts) (pr : Probe) (a : Arr) (i size : Nat)
    (h : Probe.safe K pr) (hi : i < size) (hb : i < a.bound K) :
    Probe.safe K (pr.access a i size) := by
  intro x hx
  simp only [Probe.access, List.mem_append, List.mem_singleton] at hx
  rcases hx with hx | hx
  · exact h x hx
  · subst hx
    exact ⟨hi, hb⟩

/-- What a successful iteration of the copy loop did. -/
theorem cartesian_body_inv {α : Type} (i : Nat) (s s1 : Mem α)
    (h : cartesian_body i s = some s1) :
    ∃ t, s.travel[i]? = some t ∧ i < s.joint.length ∧
      s1 = { s with joint := s.joint.set i t } := by
  cases ht : s.travel[i]? with
  | none => simp [cartesian_body, load, ht] at h
  | some t =>
    by_cases hj : i < s.joint.length
    · simp [cartesian_body, load, store, ht, hj] at h
      exact ⟨t, rfl, hj, h.symm⟩
    · simp [cartesian_body, load, store, ht, hj] at h

/-- The observed copy loop follows the plain one, counts `AXES` executions of
its body and records only safe accesses. -/
theorem cartesian_probe_spec {α : Type} (K : Consts) (mem st : Mem α) (pr0 : Probe)
    (us : α) (hsafe : Probe.safe K pr0)
    (hrun : _cartesian_kinematics K mem us = some (K.TG_OK, st)) :
    ∃ pr, cartesian_kinematics_probe K (mem, pr0) us = some (K.TG_OK, st, pr) ∧
      pr.cartesian_iters = pr0.cartesian_iters + K.AXES ∧
      pr.outer_iters = pr0.outer_iters ∧ pr.inner_iters = pr0.inner_iters ∧
      Probe.safe K pr := by
  have hloop : for_u8 K.AXES cartesian_body 256 0 mem = some st := by
    cases hl : for_u8 K.AXES cartesian_body 256 0 mem with
    | none => simp [_cartesian_kinematics, hl] at hrun
    | some x => simp [_cartesian_kinematics, hl] at hrun; rw [hrun]
  obtain ⟨pr, hp, hc, ho, hi, hs⟩ :=
    for_u8_observed K.AXES K.AXES_u8 (cartesian_body : Nat → Mem α → Option (Mem α))
      cartesian_body_probe
      (fun i t => t.cartesian_iters = pr0.cartesian_iters + i ∧
        t.outer_iters = pr0.outer_iters ∧ t.inner_iters = pr0.inner_iters ∧
        Probe.safe K t)
      (by
        intro i s s1 t hi hb ⟨hc, ho, hin, hs⟩
        obtain ⟨v, hv, hj, rfl⟩ := cartesian_body_inv i s s1 hb
        have hit := lt_of_getElem?_some hv
        refine ⟨(Probe.access (Probe.access
            { t with cartesian_iters := t.cartesian_iters + 1 }
            Arr.travel i s.travel.length) Arr.joint i s.joint.length), ?_, ?_, ?_, ?_, ?_⟩
        · simp [cartesian_body_probe, load_probe, store_probe, load, store, hv, hj]
        · simp [Probe.access, hc]; omega
        · simpa [Probe.access] using ho
        · simpa [Probe.access] using hin
        · exact Probe.safe_access K _ _ _ _
            (Probe.safe_access K _ _ _ _ hs hit hi) hj hi)
      256 0 mem st pr0 (Nat.zero_le _) hloop ⟨rfl, rfl, rfl, hsafe⟩
  exact ⟨pr, by simp [cartesian_kinematics_probe, hp], hc, ho, hi, hs⟩

/-- What a successful iteration of the inner loop did. -/
theorem motor_body_inv {α : Type} [Mul α] (cfg : cfgStruct α) (i j : Nat) (s s1 : Mem α)
    (h : motor_body cfg i j s = some s1) :
    ∃ mo, cfg.m[j]? = some mo ∧
      ((mo.motor_map = i ∧ ∃ v, s.joint[i]? = some v ∧ j < s.steps.length ∧
          s1 = { s with steps := s.steps.set j (v * mo.steps_per_unit) }) ∨
        (mo.motor_map ≠ i ∧ s1 = s)) := by
  cases hm : cfg.m[j]? with
  | none => simp [motor_body, load, hm] at h
  | some mo =>
    refine ⟨mo, rfl, ?_⟩
    by_cases hmi : mo.motor_map = i
    · left
      cases hv : s.joint[i]? with
      | none => simp [motor_body, load, hm, hmi, hv] at h
      | some v =>
        by_cases hj : j < s.steps.length
        · simp [motor_body, load, store, hm, hmi, hv, hj] at h
          exact ⟨hmi, v, rfl, hj, h.symm⟩
        · simp [motor_body, load, store, hm, hmi, hv, hj] at h
    · right
      simp [motor_body, load, hm, hmi] at h
      exact ⟨hmi, h.symm⟩

/-- The observed inner loop for an axis `i < AXES` follows the plain one, counts
`MOTORS` executions of its body and records only safe accesses. -/
theorem motor_loop_probe_spec {α : Type} [Mul α] (K : Consts) (cfg : cfgStruct α)
    (i : Nat) (hi : i < K.AXES) (st st2 : Mem α) (pr0 : Probe)
    (hsafe : Probe.safe K pr0)
    (hrun : for_u8 K.MOTORS (motor_body cfg i) 256 0 st = some st2) :
    ∃ pr, for_u8 K.MOTORS (motor_body_probe cfg i) 256 0 (st, pr0) = some (st2, pr) ∧
      pr.inner_iters = pr0.inner_iters + K.MOTORS ∧
      pr.outer_iters = pr0.outer_iters ∧ pr.cartesian_iters = pr0.cartesian_iters ∧
      Probe.safe K pr := by
  exact
    for_u8_observed K.MOTORS K.MOTORS_u8 (motor_body cfg i) (motor_body_probe cfg i)
      (fun j t => t.inner_iters = pr0.inner_iters + j ∧
        t.outer_iters = pr0.outer_iters ∧ t.cartesian_iters = pr0.cartesian_iters ∧
        Probe.safe K t)
      (by
        intro j s s1 t hj hb ⟨hin, ho, hc, hs⟩
        obtain ⟨mo, hm, hcase⟩ := motor_body_inv cfg i j s s1 hb
        have hjm := lt_of_getElem?_some hm
        have hs1 : Probe.safe K (Probe.access
            { t with inner_iters := t.inner_iters + 1 } Arr.cfg_m j cfg.m.length) :=
          Probe.safe_access K _ _ _ _ hs hjm hj
        rcases hcase with ⟨hmi, v, hv, hjs, rfl⟩ | ⟨hmi, rfl⟩
        · have hil := lt_of_getElem?_some hv
          refine ⟨(Probe.access (Probe.access (Probe.access
              { t with inner_iters := t.inner_iters + 1 } Arr.cfg_m j cfg.m.length)
              Arr.joint i s.joint.length) Arr.steps j s.steps.length), ?_, ?_, ?_, ?_, ?_⟩
          · simp [motor_body_probe, load_probe, store_probe, load, store, hm, hmi, hv, hjs]
          · simp [Probe.access, hin]; omega
          · simpa [Probe.access] using ho
          · simpa [Probe.access] using hc
          · exact Probe.safe_access K _ _ _ _
              (Probe.safe_access K _ _ _ _ hs1 hil hi) hjs hj
        · refine ⟨(Probe.access { t with inner_iters := t.inner_iters + 1 }
              Arr.cfg_m j cfg.m.length), ?_, ?_, ?_, ?_, hs1⟩
          · simp [motor_body_probe, load_probe, load, hm, hmi]
          · simp [Probe.access, hin]; omega
          · simpa [Probe.access] using ho
          · simpa [Probe.access] using hc)
      256 0 st st2 pr0 (Nat.zero_le _) hrun ⟨rfl, rfl, rfl, hsafe⟩

/-- What a successful iteration of the outer loop did. -/
theorem axis_body_inv {α : Type} [Zero α] [Mul α] (K : Consts) (cfg : cfgStruct α)
    (i : Nat) (s s1 : Mem α) (h : axis_body K cfg i s = some s1) :
    ∃ ax st1, cfg.a[i]? = some ax ∧
      ((ax.axis_mode = K.AXIS_INHIBITED ∧ i < s.joint.length ∧
          st1 = { s with joint := s.joint.set i 0 }) ∨
        (ax.axis_mode ≠ K.AXIS_INHIBITED ∧ st1 = s)) ∧
      for_u8 K.MOTORS (motor_body cfg i) 256 0 st1 = some s1 := by
  cases ha : cfg.a[i]? with
  | none => simp [axis_body, load, ha] at h
  | some ax =>
    by_cases hinh : ax.axis_mode = K.AXIS_INHIBITED
    · by_cases hj : i < s.joint.length
      · simp [axis_body, load, store, ha, hinh, hj] at h
        exact ⟨ax, _, rfl, Or.inl ⟨hinh, hj, rfl⟩, h⟩
      · simp [axis_body, load, store, ha, hinh, hj] at h
    · simp [axis_body, load, ha, hinh] at h
      exact ⟨ax, _, rfl, Or.inr ⟨hinh, rfl⟩, h⟩

/-- The observed outer loop body on an axis `i < AXES` follows the plain one,
counts one outer and `MOTORS` inner executions and records only safe accesses. -/
theorem axis_body_probe_spec {α : Type} [Zero α] [Mul α] (K : Consts) (cfg : cfgStruct α)
    (i : Nat) (hi : i < K.AXES) (s s1 : Mem α) (t : Probe) (hs : Probe.safe K t)
    (hb : axis_body K cfg i s = some s1) :
    ∃ t1, axis_body_probe K cfg i (s, t) = some (s1, t1) ∧
      t1.outer_iters = t.outer_iters + 1 ∧
      t1.inner_iters = t.inner_iters + K.MOTORS ∧
      t1.cartesian_iters = t.cartesian_iters ∧ Probe.safe K t1 := by
  obtain ⟨ax, st1, ha, hcase, hloop⟩ := axis_body_inv K cfg i s s1 hb
  have hia := lt_of_getElem?_some ha
  have hs1 : Probe.safe K (Probe.access
      { t with outer_iters := t.outer_iters + 1 } Arr.cfg_a i cfg.a.length) :=
    Probe.safe_access K _ _ _ _ hs hia hi
  rcases hcase with ⟨hinh, hj, rfl⟩ | ⟨hinh, rfl⟩
  · obtain ⟨pr, hrun, hin, ho, hc, hsafe⟩ :=
      motor_loop_probe_spec K cfg i hi _ s1
        (Probe.access (Probe.access { t with outer_iters := t.outer_iters + 1 }
          Arr.cfg_a i cfg.a.length) Arr.joint i s.joint.length)
        (Probe.safe_access K _ _ _ _ hs1 hj hi) hloop
    refine ⟨pr, ?_, ?_, ?_, ?_, hsafe⟩
    · simp [axis_body_probe, load_probe, store_probe, load, store, ha, hinh, hj, hrun]
    · simpa [Probe.access] using ho
    · simpa [Probe.access] using hin
    · simpa [Probe.access] using hc
  · obtain ⟨pr, hrun, hin, ho, hc, hsafe⟩ :=
      motor_loop_probe_spec K cfg i hi _ s1
        (Probe.access { t with outer_iters := t.outer_iters + 1 }
          Arr.cfg_a i cfg.a.length) hs1 hloop
    refine ⟨pr, ?_, ?_, ?_, ?_, hsafe⟩
    · simp [axis_body_probe, load_probe, load, ha, hinh, hrun]
    · simpa [Probe.access] using ho
    · simpa [Probe.access] using hin
    · simpa [Probe.access] using hc

/-- The observed `ik_kinematics`, started with an empty record, follows the plain
call: same status and memory, `AXES` executions of the copy loop body and of the
outer loop body, `AXES * MOTORS` of the inner loop body, only safe accesses. -/
theorem ik_kinematics_probe_spec {α : Type} [Zero α] [Mul α] (K : Consts)
    (cfg : cfgStruct α) (mem : Mem α) (us : α) (hs : Sized K cfg mem) :
    ∃ mem' pr, ik_kinematics_probe K cfg (mem, Probe.start) us = some (K.TG_OK, mem', pr) ∧
      ik_kinematics K cfg mem us = some (K.TG_OK, mem') ∧
      pr.cartesian_iters = K.AXES ∧ pr.outer_iters = K.AXES ∧
      pr.inner_iters = K.AXES * K.MOTORS ∧ Probe.safe K pr := by
  obtain ⟨mem', hrun, _⟩ := ik_kinematics_spec K cfg mem us hs
  obtain ⟨st, hcart, _⟩ := cartesian_spec K mem us hs.1 hs.2.1
  have hloop : for_u8 K.AXES (axis_body K cfg) 256 0 st = some mem' := by
    cases hl : for_u8 K.AXES (axis_body K cfg) 256 0 st with
    | none => simp [ik_kinematics, hcart, hl] at hrun
    | some x => simp [ik_kinematics, hcart, hl] at hrun; rw [hrun]
  have h0 : Probe.safe K Probe.start := by
    intro a ha
    simp [Probe.start] at ha
  obtain ⟨pc, hpc, hc1, ho1, hi1, hs1⟩ := cartesian_probe_spec K mem st Probe.start us h0 hcart
  obtain ⟨pr, hp, ho, hin, hc, hsafe⟩ :=
    for_u8_observed K.AXES K.AXES_u8 (axis_body K cfg) (axis_body_probe K cfg)
      (fun i t => t.outer_iters = pc.outer_iters + i ∧
        t.inner_iters = pc.inner_iters + i * K.MOTORS ∧
        t.cartesian_iters = pc.cartesian_iters ∧ Probe.safe K t)
      (by
        intro i s s1 t hi hb ⟨ho, hin, hc, hsf⟩
        obtain ⟨t1, hbp, ho', hin', hc', hsf'⟩ :=
          axis_body_probe_spec K cfg i hi s s1 t hsf hb
        refine ⟨t1, hbp, by omega, ?_, by omega, hsf'⟩
        rw [hin', hin, Nat.add_mul, Nat.one_mul, Nat.add_assoc])
      256 0 st mem' pc (Nat.zero_le _) hloop ⟨rfl, by simp, rfl, hs1⟩
  refine ⟨mem', pr, by simp [ik_kinematics_probe, hpc, hp], hrun, ?_, ?_, ?_, hsafe⟩
  · rw [hc, hc1]; simp [Probe.start]
  · rw [ho, ho1]; simp [Probe.start]
  · rw [hin, hi1]; simp [Probe.start]

/-- C12 (bounded execution): with `AXES` and `MOTORS` at most 255, so that the
8-bit counters never wrap, `ik_kinematics` returns on every input of the
declared sizes, and the observed run executes the outer loop body exactly `AXES`
times, the inner loop body exactly `AXES * MOTORS` times and the loop body of
`_cartesian_kinematics` exactly `AXES` times, whatever `travel`, `microseconds`
and the configuration values are; the observed run returns the status and memory
of the plain one. -/
theorem ik_iteration_counts {α : Type} [Zero α] [Mul α] (K : Consts) (cfg : cfgStruct α)
    (mem : Mem α) (us : α) (hs : Sized K cfg mem) :
    K.AXES ≤ 255 ∧ K.MOTORS ≤ 255 ∧
    (∃ mem' pr, ik_kinematics_probe K cfg (mem, Probe.start) us =
        some (K.TG_OK, mem', pr) ∧
      ik_kinematics K cfg mem us = some (K.TG_OK, mem') ∧
      pr.outer_iters = K.AXES ∧ pr.inner_iters = K.AXES * K.MOTORS ∧
      pr.cartesian_iters = K.AXES) ∧
    (∃ st pc, cartesian_kinematics_probe K (mem, Probe.start) us =
        some (K.TG_OK, st, pc) ∧
      _cartesian_kinematics K mem us = some (K.TG_OK, st) ∧
      pc.cartesian_iters = K.AXES ∧ pc.outer_iters = 0 ∧ pc.inner_iters = 0) := by
  obtain ⟨mem', pr, hp, hrun, hc, ho, hi, _⟩ := ik_kinematics_probe_spec K cfg mem us hs
  obtain ⟨st, hcart, _⟩ := cartesian_spec K mem us hs.1 hs.2.1
  have h0 : Probe.safe K Probe.start := by
    intro a ha
    simp [Probe.start] at ha
  obtain ⟨pc, hpc, hc1, ho1, hi1, _⟩ := cartesian_probe_spec K mem st Probe.start us h0 hcart
  refine ⟨K.AXES_u8, K.MOTORS_u8, ⟨mem', pr, hp, hrun, ho, hi, hc⟩,
    ⟨st, pc, hpc, hcart, ?_, ?_, ?_⟩⟩
  · rw [hc1]; simp [Probe.start]
  · rw [ho1]; rfl
  · rw [hi1]; rfl

/-- C12, at the ganged example (3 axes, 4 motors): 3 outer, 12 inner and 3 copy
iterations. -/
theorem ik_iteration_counts_witness :
    Sized K34 cfg34 mem34 ∧
    (K34.AXES ≤ 255 ∧ K34.MOTORS ≤ 255 ∧
    (∃ mem' pr, ik_kinematics_probe K34 cfg34 (mem34, Probe.start) 0 =
        some (K34.TG_OK, mem', pr) ∧
      ik_kinematics K34 cfg34 mem34 0 = some (K34.TG_OK, mem') ∧
      pr.outer_iters = K34.AXES ∧ pr.inner_iters = K34.AXES * K34.MOTORS ∧
      pr.cartesian_iters = K34.AXES) ∧
    (∃ st pc, cartesian_kinematics_probe K34 (mem34, Probe.start) 0 =
        some (K34.TG_OK, st, pc) ∧
      _cartesian_kinematics K34 mem34 0 = some (K34.TG_OK, st) ∧
      pc.cartesian_iters = K34.AXES ∧ pc.outer_iters = 0 ∧ pc.inner_iters = 0)) ∧
    (ik_kinematics_probe K34 cfg34 (mem34, Probe.start) 0).map
      (fun r => (r.2.2.outer_iters, r.2.2.inner_iters, r.2.2.cartesian_iters)) =
        some (3, 12, 3) :=
  ⟨by decide, ik_iteration_counts K34 cfg34 mem34 0 (by decide),
    by norm_num [ik_kinematics_probe, cartesian_kinematics_probe, for_u8,
      cartesian_body_probe, axis_body_probe, motor_body_probe, load_probe, store_probe,
      load, store, Probe.access, Probe.start, K34, cfg34, mem34]⟩

/-- C14 (index safety): given `travel` with at least `AXES` entries, `steps` with
at least `MOTORS` entries, `cfg.a` of `AXES` and `cfg.m` of `MOTORS` entries, and
arbitrary `motor_map` values, every array access recorded in the observed runs
of `ik_kinematics` and `_cartesian_kinematics` uses an index strictly below the
size of the array accessed, and below `AXES` (for `travel`, `joint`, `cfg.a`) or
`MOTORS` (for `steps`, `cfg.m`): the indices are the loop counters, never a
`motor_map` value. The observed run returns the status and memory of the plain
one. -/
theorem ik_index_safe {α : Type} [Zero α] [Mul α] (K : Consts) (cfg : cfgStruct α)
    (mem : Mem α) (us : α) (hs : Sized K cfg mem) :
    (∃ mem' pr, ik_kinematics_probe K cfg (mem, Probe.start) us =
        some (K.TG_OK, mem', pr) ∧
      ik_kinematics K cfg mem us = some (K.TG_OK, mem') ∧
      ∀ a ∈ pr.accesses, a.index < a.size ∧ a.index < a.arr.bound K) ∧
    (∃ st pc, cartesian_kinematics_probe K (mem, Probe.start) us =
        some (K.TG_OK, st, pc) ∧
      _cartesian_kinematics K mem us = some (K.TG_OK, st) ∧
      ∀ a ∈ pc.accesses, a.index < a.size ∧ a.index < a.arr.bound K) := by
  obtain ⟨mem', pr, hp, hrun, _, _, _, hsafe⟩ := ik_kinematics_probe_spec K cfg mem us hs
  obtain ⟨st, hcart, _⟩ := cartesian_spec K mem us hs.1 hs.2.1
  have h0 : Probe.safe K Probe.start := by
    intro a ha
    simp [Probe.start] at ha
  obtain ⟨pc, hpc, _, _, _, hsc⟩ := cartesian_probe_spec K mem st Probe.start us h0 hcart
  exact ⟨⟨mem', pr, hp, hrun, hsafe⟩, ⟨st, pc, hpc, hcart, hsc⟩⟩

/-- C14, at `motor_map = [0, 7, 2]` on three axes: the run records 22 accesses,
with these indices in program order; the value 7 is never used as an index. A
`steps` array of 2 entries, below `MOTORS = 3`, makes the run fail. -/
theorem ik_index_safe_witness :
    Sized K3 cfg3_bad_map mem3 ∧
    ((∃ mem' pr, ik_kinematics_probe K3 cfg3_bad_map (mem3, Probe.start) 0 =
        some (K3.TG_OK, mem', pr) ∧
      ik_kinematics K3 cfg3_bad_map mem3 0 = some (K3.TG_OK, mem') ∧
      ∀ a ∈ pr.accesses, a.index < a.size ∧ a.index < a.arr.bound K3) ∧
    (∃ st pc, cartesian_kinematics_probe K3 (mem3, Probe.start) 0 =
        some (K3.TG_OK, st, pc) ∧
      _cartesian_kinematics K3 mem3 0 = some (K3.TG_OK, st) ∧
      ∀ a ∈ pc.accesses, a.index < a.size ∧ a.index < a.arr.bound K3)) ∧
    (ik_kinematics_probe K3 cfg3_bad_map (mem3, Probe.start) 0).map
      (fun r => r.2.2.accesses.map (fun a => a.index)) =
        some [0, 0, 1, 1, 2, 2, 0, 0, 0, 0, 1, 2, 1, 0, 1, 2, 2, 0, 1, 2, 2, 2] ∧
    ¬ Sized K3 cfg3 mem3_short_steps ∧
    ik_kinematics K3 cfg3 mem3_short_steps 0 = none :=
  ⟨by decide, ik_index_safe K3 cfg3_bad_map mem3 0 (by decide),
    by norm_num [ik_kinematics_probe, cartesian_kinematics_probe, for_u8,
      cartesian_body_probe, axis_body_probe, motor_body_probe, load_probe, store_probe,
      load, store, Probe.access, Probe.start, K3, cfg3_bad_map, mem3],
    by decide,
    by norm_num [ik_kinematics, _cartesian_kinematics, for_u8, cartesian_body, axis_body,
      motor_body, load, store, K3, cfg3, mem3_short_steps]⟩

end TinyG
